import Mathlib

/-!
# 2048cc: the driver (`src/main.c`) over the board and moves-history engines

`main.c` is embedded function by function.  The modules it calls
(`board.c`, `gs.c`, `mvhist.c`, `tui.c`) are modelled from the
specification; each such definition says so in its doc comment.

Conventions of the embedding:
* a C object reached through a pointer becomes a value that is passed in and
  returned; a `NULL` pointer is `none` (for a `GSNode *`, the empty chain);
* C `int` flags (`moved`, `iswin`, `didundo`, the result of `_do_play_board`)
  are `Bool`; `long int` scores are `Int` (no overflow is modelled);
* calls on the text user interface are recorded, in order, in the `Tui` value;
  the key a prompt returns is an argument of the function that may prompt;
* `rand()` is an explicit list of drawn numbers.
-/

namespace CC2048

/-! ## Board (board.h) -/

/-- Modelled from the spec: the `Board` of `board.c` (absent): a `dim × dim` grid
of tile values (0 is empty), the number of tiles spawned per move and the
sentinel (winning) value. -/
structure Board where
  dim : Nat
  cells : List (List Nat)
  nrandom : Nat
  sentinel : Nat
deriving DecidableEq, Repr

/-- Outcome of one `board_move_*` call: the value it returns (`moved`), the
board it leaves behind and the two out-parameters `*score` and `*iswin`. -/
structure MoveResult where
  moved : Bool
  board : Board
  score : Int
  iswin : Bool
deriving DecidableEq, Repr

/-- Modelled from the spec: `board_get_dim`. -/
def board_get_dim (b : Board) : Nat := b.dim

/-- Modelled from the spec: `board_get_nrandom`, the number of tiles spawned per
successful move. -/
def board_get_nrandom (b : Board) : Nat := b.nrandom

/-- Modelled from the spec: the tile at row `i`, column `j` (0 outside the grid). -/
def board_get_tile (b : Board) (i j : Nat) : Nat := (b.cells.getD i []).getD j 0

/-- Row `i` of the board, left to right. -/
def board_row (b : Board) (i : Nat) : List Nat :=
  (List.range b.dim).map fun j => board_get_tile b i j

/-- Column `j` of the board, top to bottom. -/
def board_col (b : Board) (j : Nat) : List Nat :=
  (List.range b.dim).map fun i => board_get_tile b i j

/-- Modelled from the spec: step (1)/(3) of the line transform, "compact non-zero
tiles toward the target edge preserving order".  The target edge is the head of
the list. -/
def line_compact (l : List Nat) : List Nat :=
  l.filter (fun t => t != 0) ++ l.filter (fun t => t == 0)

/-- Modelled from the spec: step (2) of the line transform, "scan from the target
edge inward, merging each tile with its neighbor only if values are equal and
neither has already merged this move; merged value doubles and is added to
score; if merged value equals the sentinel win value, set iswin".  Returns the
line (a merge leaves a gap), the score gained and the win flag. -/
def line_merge (sentinel : Nat) : List Nat → List Nat × Int × Bool
  | [] => ([], 0, false)
  | [a] => ([a], 0, false)
  | a :: b :: rest =>
    if a != 0 && a == b then
      let r := line_merge sentinel rest
      ((a + b) :: 0 :: r.1, ((a + b : Nat) : Int) + r.2.1, (a + b == sentinel) || r.2.2)
    else
      let r := line_merge sentinel (b :: rest)
      (a :: r.1, r.2.1, r.2.2)

/-- Modelled from the spec: the whole line transform: compact, merge, compact. -/
def line_move (sentinel : Nat) (l : List Nat) : List Nat × Int × Bool :=
  let r := line_merge sentinel (line_compact l)
  (line_compact r.1, r.2.1, r.2.2)

/-- Rebuild a board from its rows. -/
def board_of_rows (b : Board) (rows : List (List Nat)) : Board :=
  { b with cells := (List.range b.dim).map fun i =>
      (List.range b.dim).map fun j => (rows.getD i []).getD j 0 }

/-- Rebuild a board from its columns. -/
def board_of_cols (b : Board) (cols : List (List Nat)) : Board :=
  { b with cells := (List.range b.dim).map fun i =>
      (List.range b.dim).map fun j => (cols.getD j []).getD i 0 }

/-- Assemble the result of a move from the transformed lines. -/
def move_result (b : Board) (score : Int) (lines : List (List Nat × Int × Bool))
    (rebuild : Board → List (List Nat) → Board) : MoveResult :=
  let nb := rebuild b (lines.map fun r => r.1)
  { moved := decide (nb.cells ≠ (board_of_rows b ((List.range b.dim).map (board_row b))).cells)
    board := nb
    score := score + (lines.map fun r => r.2.1).sum
    iswin := lines.any fun r => r.2.2 }

/-- Modelled from the spec: `board_move_left`: every row slides toward column 0. -/
def board_move_left (b : Board) (score : Int) : MoveResult :=
  move_result b score
    ((List.range b.dim).map fun i => line_move b.sentinel (board_row b i))
    board_of_rows

/-- Modelled from the spec: `board_move_right`: every row slides toward the last
column (the row algorithm with the iteration order swapped). -/
def board_move_right (b : Board) (score : Int) : MoveResult :=
  move_result b score
    ((List.range b.dim).map fun i =>
      let r := line_move b.sentinel (board_row b i).reverse
      (r.1.reverse, r.2.1, r.2.2))
    board_of_rows

/-- Modelled from the spec: `board_move_up`: every column slides toward row 0. -/
def board_move_up (b : Board) (score : Int) : MoveResult :=
  move_result b score
    ((List.range b.dim).map fun j => line_move b.sentinel (board_col b j))
    board_of_cols

/-- Modelled from the spec: `board_move_down`: every column slides toward the
last row. -/
def board_move_down (b : Board) (score : Int) : MoveResult :=
  move_result b score
    ((List.range b.dim).map fun j =>
      let r := line_move b.sentinel (board_col b j).reverse
      (r.1.reverse, r.2.1, r.2.2))
    board_of_cols

/-- Modelled from the spec: `board_has_room`: "true if at least one cell is
empty". -/
def board_has_room (b : Board) : Bool :=
  (List.range b.dim).any fun i => (List.range b.dim).any fun j =>
    board_get_tile b i j == 0

/-- Modelled from the spec: `board_has_adjacent`: "true if any two horizontally or
vertically adjacent cells hold equal non-zero values". -/
def board_has_adjacent (b : Board) : Bool :=
  (List.range b.dim).any fun i => (List.range b.dim).any fun j =>
    board_get_tile b i j != 0 &&
      ((decide (j + 1 < b.dim) && board_get_tile b i j == board_get_tile b i (j + 1)) ||
       (decide (i + 1 < b.dim) && board_get_tile b i j == board_get_tile b (i + 1) j))

/-- The empty cells of the board, in row-major order. -/
def board_empty_cells (b : Board) : List (Nat × Nat) :=
  (List.range b.dim).flatMap fun i =>
    ((List.range b.dim).filter fun j => board_get_tile b i j == 0).map fun j => (i, j)

/-- Write tile value `v` at row `i`, column `j`. -/
def board_set_tile (b : Board) (i j v : Nat) : Board :=
  { b with cells := (List.range b.dim).map fun r => (List.range b.dim).map fun c =>
      if r = i ∧ c = j then v else board_get_tile b r c }

/-- Modelled from the spec: `board_generate_ntiles`: "spawns `n` tiles at random
empty cells (... spawns as many as fit), each tile value drawn from a fixed
weighted distribution over {2, 4} favoring 2".  The numbers drawn from `rand()`
are the list `rnd`, two per tile: the first picks the empty cell, the second
the value (4 for one residue in ten, else 2); a missing number counts as 0. -/
def board_generate_ntiles (b : Board) : Nat → List Nat → Board
  | 0, _ => b
  | n + 1, rnd =>
    match board_empty_cells b with
    | [] => b
    | c :: cs =>
      let pos := (c :: cs).getD (rnd.headD 0 % (c :: cs).length) c
      let v := if (rnd.tail.headD 0) % 10 = 9 then 4 else 2
      board_generate_ntiles (board_set_tile b pos.1 pos.2 v) n rnd.tail.tail

/-! ## GameState and the GSNode stack (gs.h) -/

/-- Modelled from the spec: the direction of the previous move,
`GS_NEXTMOVE_NONE`, `GS_NEXTMOVE_UP`, ... of `gs.h` (absent). -/
inductive GS_NEXTMOVE where
  | NONE | UP | DOWN | LEFT | RIGHT
deriving DecidableEq, Repr

/-- Modelled from the spec: the `GameState` of `gs.c` (absent): "composes a Board
with score, best-score, and the direction of the previous move". -/
structure GameState where
  board : Board
  score : Int
  bestscore : Int
  prevmove : GS_NEXTMOVE
deriving DecidableEq, Repr

/-- Modelled from the spec: `gamestate_get_board`. -/
def gamestate_get_board (gs : GameState) : Board := gs.board

/-- Modelled from the spec: `gamestate_get_score`. -/
def gamestate_get_score (gs : GameState) : Int := gs.score

/-- Modelled from the spec: `gamestate_get_bestscore`. -/
def gamestate_get_bestscore (gs : GameState) : Int := gs.bestscore

/-- Modelled from the spec: `gamestate_set_score`. -/
def gamestate_set_score (gs : GameState) (score : Int) : GameState :=
  { gs with score := score }

/-- Modelled from the spec: `gamestate_set_bestscore`. -/
def gamestate_set_bestscore (gs : GameState) (bscore : Int) : GameState :=
  { gs with bestscore := bscore }

/-- Modelled from the spec: `gamestate_set_prevmove`. -/
def gamestate_set_prevmove (gs : GameState) (mv : GS_NEXTMOVE) : GameState :=
  { gs with prevmove := mv }

/-- Modelled from the spec: `gamestate_copy(dst, src)`: "GameState is always fully
copied": every field of `src` overwrites `dst`; with a `NULL` source nothing
is copied. -/
def gamestate_copy (dst : GameState) (src : Option GameState) : GameState :=
  match src with
  | none => dst
  | some s => s

/-- Modelled from the spec: a `GSNode` of `gs.c` (absent): "a stack node holding
one owned GameState snapshot, a 1-based position count from the bottom of its
stack"; the link to the next node toward the bottom is the tail of the list the
node heads (see `GSStack`). -/
structure GSNode where
  state : GameState
  count : Nat
deriving DecidableEq, Repr

/-- A `GSNode *`: the pointed node followed by the nodes its `next` links reach,
down to the bottom of the stack.  `NULL` is the empty chain.  "A stack is
represented purely by a pointer/reference to its top node." -/
abbrev GSStack := List GSNode

/-- Modelled from the spec: `gsstack_peek_count`: the count stored in the node
(0 for `NULL`). -/
def gsstack_peek_count (it : GSStack) : Nat :=
  match it with
  | [] => 0
  | n :: _ => n.count

/-- Modelled from the spec: `gsstack_peek_state`: the snapshot held by the node
(`NULL` for `NULL`). -/
def gsstack_peek_state (it : GSStack) : Option GameState :=
  match it with
  | [] => none
  | n :: _ => some n.state

/-- Modelled from the spec: push on a GSNode stack: "deep-copies `state` into a
new top node ...; increments count". -/
def gsstack_push (stack : GSStack) (gs : GameState) : GSStack :=
  { state := gs, count := gsstack_peek_count stack + 1 } :: stack

/-- Modelled from the spec: pop of a GSNode stack: "removes and destroys the top
node ...; no-op-safe error if [the stack] is empty". -/
def gsstack_pop (stack : GSStack) : GSStack := stack.tail

/-- Every node's stored count is its 1-based position from the bottom: the
state of a stack that was built by pushes and pops. -/
def gsstack_wf : GSStack → Bool
  | [] => true
  | n :: rest => n.count == rest.length + 1 && gsstack_wf rest

/-! ## MovesHistory (mvhist.h) -/

/-- Modelled from the spec: the `MovesHistory` of `mvhist.c` (absent): "three
independent stacks ... plus `didundo: bool` and `replay_nmoves: int`". -/
structure MovesHistory where
  didundo : Bool
  undo : GSStack
  redo : GSStack
  replay : GSStack
  replay_nmoves : Nat
deriving DecidableEq, Repr

/-- Modelled from the spec: `mvhist_get_didundo`. -/
def mvhist_get_didundo (mv : MovesHistory) : Bool := mv.didundo

/-- Modelled from the spec: `mvhist_set_didundo`. -/
def mvhist_set_didundo (mv : MovesHistory) (v : Bool) : MovesHistory :=
  { mv with didundo := v }

/-- Modelled from the spec: `mvhist_get_replay_nmoves`. -/
def mvhist_get_replay_nmoves (mv : MovesHistory) : Nat := mv.replay_nmoves

/-- Modelled from the spec: `mvhist_isempty_undo_stack`. -/
def mvhist_isempty_undo_stack (mv : MovesHistory) : Bool := mv.undo.isEmpty

/-- Modelled from the spec: `mvhist_isempty_redo_stack`. -/
def mvhist_isempty_redo_stack (mv : MovesHistory) : Bool := mv.redo.isEmpty

/-- Modelled from the spec: `peek_undo_count`. -/
def mvhist_peek_undo_stack_count (mv : MovesHistory) : Nat := gsstack_peek_count mv.undo

/-- Modelled from the spec: `peek_undo_state`. -/
def mvhist_peek_undo_stack_state (mv : MovesHistory) : Option GameState :=
  gsstack_peek_state mv.undo

/-- Modelled from the spec: `peek_redo_state`. -/
def mvhist_peek_redo_stack_state (mv : MovesHistory) : Option GameState :=
  gsstack_peek_state mv.redo

/-- Modelled from the spec: `push_undo(state)`. -/
def mvhist_push_undo_stack (mv : MovesHistory) (gs : GameState) : MovesHistory :=
  { mv with undo := gsstack_push mv.undo gs }

/-- Modelled from the spec: `pop_undo()`. -/
def mvhist_pop_undo_stack (mv : MovesHistory) : MovesHistory :=
  { mv with undo := gsstack_pop mv.undo }

/-- Modelled from the spec: `push_redo(state)`, the mirror of `push_undo`. -/
def mvhist_push_redo_stack (mv : MovesHistory) (gs : GameState) : MovesHistory :=
  { mv with redo := gsstack_push mv.redo gs }

/-- Modelled from the spec: `pop_redo()`, the mirror of `pop_undo`. -/
def mvhist_pop_redo_stack (mv : MovesHistory) : MovesHistory :=
  { mv with redo := gsstack_pop mv.redo }

/-- Modelled from the spec: `new_replay_stack(delay)`: every snapshot of `undo`,
met by following the links from its top node, is pushed onto a fresh `replay`,
"so that `replay`'s top holds the earliest move and its bottom holds the
latest — i.e., `replay` is the reverse of `undo`.  Sets `replay_nmoves` to the
resulting count."  (`main.c`: "the replay-stack is created by duplicating in
reverse order the undo-stack".)  `delay` is pacing metadata only. -/
def mvhist_new_replay_stack (mv : MovesHistory) (_delay : Nat) : MovesHistory :=
  let replay := mv.undo.foldl (fun acc node => gsstack_push acc node.state) []
  { mv with replay := replay, replay_nmoves := gsstack_peek_count replay }

/-- Modelled from the spec: `free_replay_stack()`: "destroys every node of `replay`
without touching `undo`/`redo`". -/
def mvhist_free_replay_stack (mv : MovesHistory) : MovesHistory :=
  { mv with replay := [] }

/-- Modelled from the spec: `iter_top`: the top node of `replay`. -/
def mvhist_iter_top_replay_stack (mv : MovesHistory) : GSStack := mv.replay

/-- Modelled from the spec: `iter_bottom`: the bottom node of `replay`, the one
without a next node. -/
def mvhist_iter_bottom_replay_stack (mv : MovesHistory) : GSStack :=
  mv.replay.drop (mv.replay.length - 1)

/-- Modelled from the spec: `iter_down`: the node that `it` links to, one position
nearer the bottom of `replay`; `NULL` when there is none, which is the value
the loop of `_do_replay_auto` in `main.c` waits for.  The refusal at the
boundary that the spec describes is made by the callers in `main.c`, which test
the count before they step. -/
def mvhist_iter_down_replay_stack (_mv : MovesHistory) (it : GSStack) : GSStack :=
  it.tail

/-- The node of `stack` that links to the node at position `c`, or `NULL`. -/
def gsstack_node_above : GSStack → Nat → GSStack
  | [], _ => []
  | n :: rest, c => if gsstack_peek_count rest = c then n :: rest else gsstack_node_above rest c

/-- Modelled from the spec: `iter_up`: the node of `replay` that links to `it`, one
position nearer the top; `NULL` when there is none. -/
def mvhist_iter_up_replay_stack (mv : MovesHistory) (it : GSStack) : GSStack :=
  match it with
  | [] => []
  | n :: _ => gsstack_node_above mv.replay n.count

/-! ## Text user interface (tui.h) -/

/-- The key codes of `tui.h` (absent) that `main.c` compares a key against when
it plays a move; they are a parameter of the functions that read a key. -/
structure TuiKeys where
  TUI_KEY_UP : Int
  TUI_KEY_DOWN : Int
  TUI_KEY_LEFT : Int
  TUI_KEY_RIGHT : Int
deriving DecidableEq, Repr

/-- A call that `main.c` makes on the text user interface.  `tui_redraw` draws the
live game-state the interface points to; the call records what it showed. -/
inductive TuiCall where
  | sys_beep (n : Nat)
  | sys_sleep (msecs : Nat)
  | redraw (enable : Nat) (shown : GameState)
  | draw_infobar_winmsg
  | draw_iobar_prompt_undo
  | draw_iobar2_replaynavigation
  | draw_iobar_autoreplayinfo
  | draw_iobar_prompt_newgame
  | draw_iobar_prompt_loadreplay
  | draw_iobar_prompt_loadreplay_nofile
  | prompt_replay_fname_to_load
  | clear_infobar
  | cls
  | update_board_reference (board : Board)
  | update_mvhist_reference
  | dbgf
deriving DecidableEq, Repr

/-- The text user interface, seen as the calls made on it so far, oldest first. -/
abbrev Tui := List TuiCall

/-! ## The driver (main.c) -/

/-- The objects a driver function works on through its pointer arguments, as
they are when it returns. -/
structure Session where
  gs : GameState
  mvhist : MovesHistory
  tui : Tui
deriving DecidableEq, Repr

/-- What `_do_play_board` leaves behind: its return value and the three objects. -/
structure PlayResult where
  gameover : Bool
  gs : GameState
  mvhist : MovesHistory
  tui : Tui
deriving DecidableEq, Repr

/-- What a replay-navigation function leaves behind: the cursor `*it`, the live
game-state and the user interface (the moves-history is only read). -/
structure ReplayStep where
  it : GSStack
  gs : GameState
  tui : Tui
deriving DecidableEq, Repr

/-- The macro `KEY_TO_MVDIR` of `main.c`. -/
def KEY_TO_MVDIR (K : TuiKeys) (key : Int) : GS_NEXTMOVE :=
  if key = K.TUI_KEY_UP then GS_NEXTMOVE.UP
  else if key = K.TUI_KEY_DOWN then GS_NEXTMOVE.DOWN
  else if key = K.TUI_KEY_LEFT then GS_NEXTMOVE.LEFT
  else if key = K.TUI_KEY_RIGHT then GS_NEXTMOVE.RIGHT
  else GS_NEXTMOVE.NONE

/-- The `switch( key )` of `_do_play_board` (main.c:163-184): the board move the
key selects, with `moved = 0` and `iswin = 0` for any other key. -/
def _do_play_board_move (K : TuiKeys) (key : Int) (board : Board) (score : Int) : MoveResult :=
  if key = K.TUI_KEY_UP then board_move_up board score
  else if key = K.TUI_KEY_DOWN then board_move_down board score
  else if key = K.TUI_KEY_LEFT then board_move_left board score
  else if key = K.TUI_KEY_RIGHT then board_move_right board score
  else { moved := false, board := board, score := score, iswin := false }

/-- The function `_do_play_board` of `main.c` (lines 139-215), for non-`NULL`
arguments.  `rnd` is what `rand()` yields while tiles are spawned. -/
def _do_play_board (K : TuiKeys) (key : Int) (gs : GameState) (mvhist : MovesHistory)
    (tui : Tui) (rnd : List Nat) : PlayResult :=
  /- do the move -/
  let score := gamestate_get_score gs
  let bscore := gamestate_get_bestscore gs
  let mv := _do_play_board_move K key (gamestate_get_board gs) score
  let gs := { gs with board := mv.board }
  /- update the score, and if needed the best-score too -/
  let didundo := mvhist_get_didundo mvhist
  let gs := gamestate_set_score gs mv.score
  let gs := if !didundo && decide (bscore < mv.score) then gamestate_set_bestscore gs mv.score
            else gs
  /- update prevmv -/
  let gs := gamestate_set_prevmove gs (KEY_TO_MVDIR K key)
  if mv.iswin then
    /- a winning move -/
    let mvhist := mvhist_push_undo_stack mvhist gs
    let tui := tui ++ [TuiCall.draw_infobar_winmsg]
    { gameover := mv.iswin || !(board_has_adjacent gs.board || board_has_room gs.board)
      gs := gs, mvhist := mvhist, tui := tui }
  else if mv.moved then
    /- moved but not won -/
    let gs := { gs with board := board_generate_ntiles gs.board (board_get_nrandom gs.board) rnd }
    let mvhist := mvhist_push_undo_stack mvhist gs
    { gameover := mv.iswin || !(board_has_adjacent gs.board || board_has_room gs.board)
      gs := gs, mvhist := mvhist, tui := tui }
  else
    { gameover := mv.iswin || !(board_has_adjacent gs.board || board_has_room gs.board)
      gs := gs, mvhist := mvhist, tui := tui }

/-- The function `_do_undo` of `main.c` (lines 332-371), for non-`NULL` arguments.
`answer` is the key `tui_draw_iobar_prompt_undo` returns when it is called. -/
def _do_undo (gs : GameState) (mvhist : MovesHistory) (tui : Tui) (answer : Char) : Session :=
  /- 1st move was done automatically by the game, so ignore it -/
  if mvhist_isempty_undo_stack mvhist || decide (mvhist_peek_undo_stack_count mvhist < 2) then
    { gs := gs, mvhist := mvhist, tui := tui ++ [TuiCall.sys_beep 1] }
  else
    /- the very 1st time ask for confirmation -/
    let asked := mvhist_get_didundo mvhist == false
    let tui := if asked then tui ++ [TuiCall.draw_iobar_prompt_undo] else tui
    if asked && answer.toLower != 'y' then
      { gs := gs, mvhist := mvhist, tui := tui }
    else
      let mvhist := mvhist_set_didundo mvhist true
      let mvhist := mvhist_push_redo_stack mvhist gs
      let mvhist := mvhist_pop_undo_stack mvhist
      let prevgs := mvhist_peek_undo_stack_state mvhist
      let gs := if prevgs.isSome then gamestate_copy gs prevgs else gs
      { gs := gs, mvhist := mvhist, tui := tui }

/-- The function `_do_redo` of `main.c` (lines 381-405), for non-`NULL` arguments. -/
def _do_redo (gs : GameState) (mvhist : MovesHistory) (tui : Tui) : Session :=
  /- no undo has been done ? -/
  if mvhist_get_didundo mvhist == false || mvhist_isempty_redo_stack mvhist then
    { gs := gs, mvhist := mvhist, tui := tui ++ [TuiCall.sys_beep 1] }
  else
    let nextgs := mvhist_peek_redo_stack_state mvhist
    let gs := gamestate_copy gs nextgs
    let mvhist := mvhist_pop_redo_stack mvhist
    let mvhist := mvhist_push_undo_stack mvhist gs
    { gs := gs, mvhist := mvhist, tui := tui }

/-- The function `_do_replay_end` of `main.c` (lines 412-427). -/
def _do_replay_end (it : GSStack) (gs : GameState) (mvhist : MovesHistory) (tui : Tui) :
    ReplayStep :=
  if gsstack_peek_count it = 1 then
    { it := it, gs := gs, tui := tui ++ [TuiCall.sys_beep 1] }
  else
    let it := mvhist_iter_bottom_replay_stack mvhist
    let gs := gamestate_copy gs (gsstack_peek_state it)
    { it := it, gs := gs, tui := tui ++ [TuiCall.redraw 0 gs] }

/-- The function `_do_replay_beg` of `main.c` (lines 434-449). -/
def _do_replay_beg (it : GSStack) (gs : GameState) (mvhist : MovesHistory) (tui : Tui) :
    ReplayStep :=
  if gsstack_peek_count it = mvhist_get_replay_nmoves mvhist then
    { it := it, gs := gs, tui := tui ++ [TuiCall.sys_beep 1] }
  else
    let it := mvhist_iter_top_replay_stack mvhist
    let gs := gamestate_copy gs (gsstack_peek_state it)
    { it := it, gs := gs, tui := tui ++ [TuiCall.redraw 0 gs] }

/-- The function `_do_replay_next` of `main.c` (lines 456-471). -/
def _do_replay_next (it : GSStack) (gs : GameState) (mvhist : MovesHistory) (tui : Tui) :
    ReplayStep :=
  if gsstack_peek_count it = 1 then
    { it := it, gs := gs, tui := tui ++ [TuiCall.sys_beep 1] }
  else
    let it := mvhist_iter_down_replay_stack mvhist it
    let gs := gamestate_copy gs (gsstack_peek_state it)
    { it := it, gs := gs, tui := tui ++ [TuiCall.redraw 0 gs] }

/-- The function `_do_replay_prev` of `main.c` (lines 478-492). -/
def _do_replay_prev (it : GSStack) (gs : GameState) (mvhist : MovesHistory) (tui : Tui) :
    ReplayStep :=
  if gsstack_peek_count it = mvhist_get_replay_nmoves mvhist then
    { it := it, gs := gs, tui := tui ++ [TuiCall.sys_beep 1] }
  else
    let it := mvhist_iter_up_replay_stack mvhist it
    let gs := gamestate_copy gs (gsstack_peek_state it)
    { it := it, gs := gs, tui := tui ++ [TuiCall.redraw 0 gs] }

/-- The `while` loop of `_do_replay_auto` (main.c:513-520), run for at most `fuel`
evaluations of its condition; `none` when the fuel runs out before the
condition fails. -/
def _do_replay_auto_loop (mvhist : MovesHistory) (delay : Nat) :
    Nat → GSStack → GameState → Tui → Option ReplayStep
  | 0, _, _, _ => none
  | fuel + 1, it, gs, tui =>
    match mvhist_iter_down_replay_stack mvhist it with
    | [] => some { it := [], gs := gs, tui := tui }
    | n :: rest =>
      let gs := gamestate_copy gs (gsstack_peek_state (n :: rest))
      _do_replay_auto_loop mvhist delay fuel (n :: rest) gs
        (tui ++ [TuiCall.redraw 0 gs, TuiCall.draw_iobar2_replaynavigation,
                 TuiCall.draw_iobar_autoreplayinfo, TuiCall.sys_sleep delay])

/-- The function `_do_replay_auto` of `main.c` (lines 499-522); the loop gets
`fuel` evaluations of its condition. -/
def _do_replay_auto (fuel : Nat) (it : GSStack) (gs : GameState) (mvhist : MovesHistory)
    (tui : Tui) : Option ReplayStep :=
  let delay := 750
  if gsstack_peek_count it = 1 then
    some { it := it, gs := gs, tui := tui ++ [TuiCall.sys_beep 1] }
  else
    match _do_replay_auto_loop mvhist delay fuel it gs tui with
    | none => none
    | some r => some { r with it := mvhist_iter_bottom_replay_stack mvhist }

/-- The entry of `_do_replay` (main.c:656-665), for a non-`NULL` `*mvhist`: the
replay stack is built and the cursor put on its top; `none` is the early return
taken when there is no top node.  Yields the cursor, the live game-state, the
user interface and the moves-history. -/
def _do_replay_enter (gs : GameState) (mvhist : MovesHistory) (tui : Tui) :
    Option (ReplayStep × MovesHistory) :=
  let delay := 750
  let mvhist := mvhist_new_replay_stack mvhist delay
  let it := mvhist_iter_top_replay_stack mvhist
  if it.isEmpty then none
  else
    let gs := gamestate_copy gs (gsstack_peek_state it)
    some ({ it := it, gs := gs,
            tui := tui ++ [TuiCall.redraw 0 gs, TuiCall.draw_iobar2_replaynavigation] }, mvhist)

/-! ## A concrete session, used to instantiate the theorems -/

/-- Key codes for the examples. -/
def exKeys : TuiKeys :=
  { TUI_KEY_UP := 1, TUI_KEY_DOWN := 2, TUI_KEY_LEFT := 3, TUI_KEY_RIGHT := 4 }

/-- A 2 × 2 board with two tiles. -/
def exBoard : Board := { dim := 2, cells := [[2, 2], [0, 0]], nrandom := 1, sentinel := 2048 }

/-- The live game-state at the start of the example session. -/
def exGs0 : GameState :=
  { board := exBoard, score := 0, bestscore := 0, prevmove := GS_NEXTMOVE.NONE }

/-- The moves-history at the start of the example session: the initial state is
the only snapshot on `undo`. -/
def exMv0 : MovesHistory :=
  mvhist_push_undo_stack
    { didundo := false, undo := [], redo := [], replay := [], replay_nmoves := 0 } exGs0

/-- First move of the example session: LEFT, a 4 is spawned next to the merged 4. -/
def exPlay1 : PlayResult := _do_play_board exKeys 3 exGs0 exMv0 [] [0, 9]

/-- Second move of the example session: LEFT again. -/
def exPlay2 : PlayResult := _do_play_board exKeys 3 exPlay1.gs exPlay1.mvhist exPlay1.tui [0, 0]

/-- The example session after its first (confirmed) undo. -/
def exUndo1 : Session := _do_undo exPlay2.gs exPlay2.mvhist exPlay2.tui 'y'

/-! ## The game-over condition, in the words of the specification -/

/-- The board is full: no cell of the grid is empty. -/
def board_is_full (b : Board) : Prop :=
  ∀ i j, i < b.dim → j < b.dim → board_get_tile b i j ≠ 0

/-- Some pair of horizontally or vertically adjacent cells holds equal non-zero
tiles. -/
def board_has_equal_pair (b : Board) : Prop :=
  ∃ i j, i < b.dim ∧ j < b.dim ∧ board_get_tile b i j ≠ 0 ∧
    ((j + 1 < b.dim ∧ board_get_tile b i j = board_get_tile b i (j + 1)) ∨
     (i + 1 < b.dim ∧ board_get_tile b i j = board_get_tile b (i + 1) j))

/-- A full 2 × 2 board without equal neighbours. -/
def exBoardStuck : Board :=
  { dim := 2, cells := [[2, 4], [4, 2]], nrandom := 1, sentinel := 2048 }

/-- A full 2 × 2 board with equal neighbours in the second column. -/
def exBoardFull : Board :=
  { dim := 2, cells := [[2, 4], [8, 4]], nrandom := 1, sentinel := 2048 }

/-- A 2 × 2 board on which LEFT merges two 4s into the sentinel 8. -/
def exBoardWin : Board :=
  { dim := 2, cells := [[4, 4], [0, 0]], nrandom := 1, sentinel := 8 }

/-- A live game-state on the given board. -/
def exGsOn (b : Board) : GameState :=
  { board := b, score := 0, bestscore := 0, prevmove := GS_NEXTMOVE.NONE }

/-- The moves-history whose only snapshot is the given state. -/
def exMvOn (gs : GameState) : MovesHistory :=
  mvhist_push_undo_stack
    { didundo := false, undo := [], redo := [], replay := [], replay_nmoves := 0 } gs

/-! ## Replay, in the words of the specification -/

/-- The snapshots of `undo` in the chronological order of their pushes: from the
bottom node to the top node. -/
def undo_chronological (mv : MovesHistory) : List GameState :=
  (mv.undo.map GSNode.state).reverse

/-- The replay cursor after `k` applications of `iter_down`, starting from
`iter_top`. -/
def replay_cursor_at (mv : MovesHistory) (k : Nat) : GSStack :=
  (mvhist_iter_down_replay_stack mv)^[k] (mvhist_iter_top_replay_stack mv)

/-- The calls one pass of the autoplay loop makes for each of the given nodes, in
order: the node's snapshot is drawn, then the loop sleeps. -/
def replay_auto_frames (delay : Nat) (nodes : GSStack) : List TuiCall :=
  nodes.flatMap fun n =>
    [TuiCall.redraw 0 n.state, TuiCall.draw_iobar2_replaynavigation,
     TuiCall.draw_iobar_autoreplayinfo, TuiCall.sys_sleep delay]

/-- The replay stack and cursor of the example session after its two moves. -/
def exReplay : MovesHistory := mvhist_new_replay_stack exPlay2.mvhist 750

/-! ## New game, new variant, replay load and the game loop (main.c) -/

/-- The size-select key codes of `tui.h` (absent) that the macro
`VALID_VARIANT_KEY` of `main.c` compares a key against; a parameter. -/
structure TuiBoardKeys where
  TUI_KEY_BOARD_4 : Int
  TUI_KEY_BOARD_5 : Int
  TUI_KEY_BOARD_6 : Int
  TUI_KEY_BOARD_8 : Int
deriving DecidableEq, Repr

/-- The per-dimension settings of `board.c` (absent) that the specification
leaves open: the number of tiles spawned per move and the sentinel value of a
board of a given dimension; a parameter. -/
structure BoardVariants where
  nrandom : Nat → Nat
  sentinel : Nat → Nat

/-- The replay files as `common.c` and `mvhist.c` (absent) see them: whether a
file of a given name exists, and the moves-history that reading it yields
(`NULL` when reading fails); a parameter. -/
structure ReplayFiles where
  f_exists : String → Bool
  new_mvhist_from_file : String → Option MovesHistory

/-- The macro `VALID_VARIANT_KEY` of `main.c`. -/
def VALID_VARIANT_KEY (B : TuiBoardKeys) (key : Int) : Bool :=
  decide (B.TUI_KEY_BOARD_4 = key) || decide (B.TUI_KEY_BOARD_5 = key) ||
  decide (B.TUI_KEY_BOARD_6 = key) || decide (B.TUI_KEY_BOARD_8 = key)

/-- Modelled from the spec: `resize_and_reset(board, new_dim)`: "reallocates the
grid to `new_dim`, clears all tiles"; the settings of the new dimension come
from `V`. -/
def board_resize_and_reset (V : BoardVariants) (_b : Board) (dim : Nat) : Board :=
  { dim := dim
    cells := List.replicate dim (List.replicate dim 0)
    nrandom := V.nrandom dim
    sentinel := V.sentinel dim }

/-- Modelled from the spec: `gamestate_reset`: a new game on the same board size:
all tiles cleared and the automatic initial spawn made (twice `nrandom` tiles,
as for a new variant), "`score` ... reset to 0 on new game"; the best score is
kept and there is no previous move. -/
def gamestate_reset (gs : GameState) (rnd : List Nat) : GameState :=
  { board := board_generate_ntiles
      { gs.board with cells := List.replicate gs.board.dim (List.replicate gs.board.dim 0) }
      (2 * gs.board.nrandom) rnd
    score := 0
    bestscore := gs.bestscore
    prevmove := GS_NEXTMOVE.NONE }

/-- Modelled from the spec: `mvhist_reset`: the three stacks are emptied.  The
specification calls `didundo` permanent for the session, so the flag is left as
it is. -/
def mvhist_reset (mv : MovesHistory) : MovesHistory :=
  { mv with undo := [], redo := [], replay := [], replay_nmoves := 0 }

/-- The function `_do_reset_game` of `main.c` (lines 225-240), for non-`NULL`
arguments.  `answer` is the key the new-game prompt returns, `rnd` what `rand()`
yields for the initial spawn. -/
def _do_reset_game (gs : GameState) (mvhist : MovesHistory) (tui : Tui) (answer : Char)
    (rnd : List Nat) : Session :=
  let tui := tui ++ [TuiCall.draw_iobar_prompt_newgame]
  if answer.toLower == 'y' then
    let gs := gamestate_reset gs rnd
    let mvhist := mvhist_reset mvhist
    let mvhist := mvhist_push_undo_stack mvhist gs
    { gs := gs, mvhist := mvhist, tui := tui ++ [TuiCall.clear_infobar] }
  else
    { gs := gs, mvhist := mvhist, tui := tui }

/-- The function `_do_new_variant` of `main.c` (lines 263-302), for non-`NULL`
arguments.  `key - '0'` is the new dimension. -/
def _do_new_variant (B : TuiBoardKeys) (V : BoardVariants) (key : Int) (gs : GameState)
    (mvhist : MovesHistory) (tui : Tui) (answer : Char) (rnd : List Nat) : Session :=
  let dim : Int := key - 48
  if !VALID_VARIANT_KEY B key then
    { gs := gs, mvhist := mvhist, tui := tui ++ [TuiCall.dbgf] }
  else
    let board := gamestate_get_board gs
    if dim ≠ (board_get_dim board : Int) then
      /- prompt for new-game confirmation -/
      let tui := tui ++ [TuiCall.draw_iobar_prompt_newgame]
      if answer.toLower == 'y' then
        let board := board_resize_and_reset V board dim.toNat
        let board := board_generate_ntiles board (2 * board_get_nrandom board) rnd
        let gs := { gs with board := board }
        let gs := gamestate_set_score gs 0
        let mvhist := mvhist_reset mvhist
        let mvhist := mvhist_push_undo_stack mvhist gs
        { gs := gs, mvhist := mvhist
          tui := tui ++ [TuiCall.update_board_reference board, TuiCall.cls] }
      else
        { gs := gs, mvhist := mvhist, tui := tui }
    else
      { gs := gs, mvhist := mvhist, tui := tui }

/-- What `_do_replay_load` leaves behind: the cursor `*it`, the live game-state,
the moves-history `*mvhist` and the user interface. -/
structure ReplaySession where
  it : GSStack
  gs : GameState
  mvhist : MovesHistory
  tui : Tui
deriving DecidableEq, Repr

/-- The function `_do_replay_load` of `main.c` (lines 551-603).  `answer` is the
key the load prompt returns and `fname` the file name the player then gives. -/
def _do_replay_load (F : ReplayFiles) (it : GSStack) (gs : GameState) (mvhist : MovesHistory)
    (tui : Tui) (answer : Char) (fname : String) : ReplaySession :=
  let tui := tui ++ [TuiCall.draw_iobar_prompt_loadreplay]
  if answer.toLower == 'y' then
    let tui := tui ++ [TuiCall.prompt_replay_fname_to_load]
    if !F.f_exists fname then
      /- ret_nofile -/
      { it := it, gs := gs, mvhist := mvhist
        tui := tui ++ [TuiCall.cls, TuiCall.redraw 0 gs,
                       TuiCall.draw_iobar_prompt_loadreplay_nofile] }
    else
      match F.new_mvhist_from_file fname with
      | none =>
        /- ret_failure -/
        { it := it, gs := gs, mvhist := mvhist
          tui := tui ++ [TuiCall.dbgf, TuiCall.cls, TuiCall.redraw 0 gs] }
      | some tmp =>
        let mvhist := tmp
        let it := mvhist_iter_top_replay_stack mvhist
        let gs := gamestate_copy gs (gsstack_peek_state it)
        { it := it, gs := gs, mvhist := mvhist
          tui := tui ++ [TuiCall.update_mvhist_reference,
                         TuiCall.update_board_reference (gamestate_get_board gs),
                         TuiCall.cls, TuiCall.redraw 0 gs] }
  else
    { it := it, gs := gs, mvhist := mvhist, tui := tui }

/-- The start of `main` (main.c:831-836) on the objects `_alloc` returned: the
game is reset, the moves-history is reset and the initial state is put on the
undo stack. -/
def main_init (gs : GameState) (mvhist : MovesHistory) (tui : Tui) (rnd : List Nat) : Session :=
  let gs := gamestate_reset gs rnd
  let mvhist := mvhist_reset mvhist
  let mvhist := mvhist_push_undo_stack mvhist gs
  { gs := gs, mvhist := mvhist, tui := tui }

/-- One operation of the game loop of `main` outside replay mode, with what the
player and `rand()` supply to it. -/
inductive DriverOp where
  | play (key : Int) (rnd : List Nat)
  | undo (answer : Char)
  | redo
  | reset_game (answer : Char) (rnd : List Nat)
  | new_variant (key : Int) (answer : Char) (rnd : List Nat)
deriving DecidableEq, Repr

/-- The dispatch of the game loop of `main` (main.c:854-882) on one operation.
The new game that the loop starts after a game-over (main.c:904-910) makes the
same three calls as a confirmed `reset_game`. -/
def driver_step (K : TuiKeys) (B : TuiBoardKeys) (V : BoardVariants) (s : Session) :
    DriverOp → Session
  | DriverOp.play key rnd =>
    let r := _do_play_board K key s.gs s.mvhist s.tui rnd
    { gs := r.gs, mvhist := r.mvhist, tui := r.tui }
  | DriverOp.undo answer => _do_undo s.gs s.mvhist s.tui answer
  | DriverOp.redo => _do_redo s.gs s.mvhist s.tui
  | DriverOp.reset_game answer rnd => _do_reset_game s.gs s.mvhist s.tui answer rnd
  | DriverOp.new_variant key answer rnd =>
    _do_new_variant B V key s.gs s.mvhist s.tui answer rnd

/-- A sequence of operations of the game loop, run from a session. -/
def driver_run (K : TuiKeys) (B : TuiBoardKeys) (V : BoardVariants) (s : Session)
    (ops : List DriverOp) : Session :=
  ops.foldl (driver_step K B V) s

/-- Replay files for the examples: one file exists and cannot be read as a
moves-history, no other file exists. -/
def exFiles : ReplayFiles :=
  { f_exists := fun name => name == "replays/bad.sav"
    new_mvhist_from_file := fun _ => none }

/-- Size-select key codes for the examples. -/
def exBoardKeys : TuiBoardKeys :=
  { TUI_KEY_BOARD_4 := 52, TUI_KEY_BOARD_5 := 53, TUI_KEY_BOARD_6 := 54, TUI_KEY_BOARD_8 := 56 }

/-- Per-dimension settings for the examples. -/
def exVariants : BoardVariants :=
  { nrandom := fun dim => if dim ≤ 4 then 1 else 2, sentinel := fun _ => 2048 }

/-! ## Invariants of the game loop, in the words of the specification -/

/-- The top snapshot of the undo stack has the board and the score of the live
game-state. -/
def undo_top_matches (s : Session) : Prop :=
  ∃ top, gsstack_peek_state s.mvhist.undo = some top ∧
    top.board = s.gs.board ∧ top.score = s.gs.score

/-- The assumption on the board engine for one operation: if the operation is a
key whose board move reports `moved = false` and `iswin = false`, that move
left the board and the score as they were. -/
def move_still_ok (K : TuiKeys) (s : Session) : DriverOp → Bool
  | DriverOp.play key _ =>
    (_do_play_board_move K key s.gs.board s.gs.score).moved ||
    (_do_play_board_move K key s.gs.board s.gs.score).iswin ||
    (decide ((_do_play_board_move K key s.gs.board s.gs.score).board = s.gs.board) &&
     decide ((_do_play_board_move K key s.gs.board s.gs.score).score = s.gs.score))
  | _ => true

/-- The assumption on the board engine along a run: it holds for every
operation, in the session the operation starts from. -/
def moves_still_ok (K : TuiKeys) (B : TuiBoardKeys) (V : BoardVariants) :
    Session → List DriverOp → Bool
  | _, [] => true
  | s, op :: ops => move_still_ok K s op && moves_still_ok K B V (driver_step K B V s op) ops

/-- The example session as a run of the game loop: LEFT, UP (nothing moves),
LEFT, a confirmed undo, a redo, a switch to the 5 × 5 board, a new game. -/
def exOps : List DriverOp :=
  [DriverOp.play 3 [0, 9], DriverOp.play 1 [], DriverOp.play 3 [0, 0], DriverOp.undo 'y',
   DriverOp.redo, DriverOp.new_variant 53 'y' [0, 0, 3, 9], DriverOp.reset_game 'Y' [1, 1]]


/-! ## Merge conservation, in the words of the specification -/

/-- The sum of all tile values of the grid. -/
def board_sum (b : Board) : Nat :=
  ((List.range b.dim).map fun i =>
    ((List.range b.dim).map fun j => board_get_tile b i j).sum).sum

/-- The merged (doubled) values that the merges of one line produce: the line is
scanned from the target edge, a tile merges with its neighbour when both are
equal and non-zero, and a merged tile does not merge again. -/
def line_merged_values : List Nat → List Nat
  | [] => []
  | [_] => []
  | a :: b :: rest =>
    if a != 0 && a == b then (a + b) :: line_merged_values rest
    else line_merged_values (b :: rest)

/-- The merged values of a whole move, line by line: `lines` are the lines of the
board as the move scans them. -/
def move_merged_values (lines : List (List Nat)) : List Nat :=
  lines.flatMap fun l => line_merged_values (line_compact l)

/-- The grid of the board is stored as `dim` rows of `dim` tiles. -/
def board_shaped (b : Board) : Bool :=
  decide (b.cells = (List.range b.dim).map (board_row b))

/-- The number of non-empty tiles of a line. -/
def line_tiles (l : List Nat) : Nat := (l.filter fun t => t != 0).length

/-! # Theorems -/

/-! ## Stack lemmas -/

theorem gsstack_wf_count (s : GSStack) (h : gsstack_wf s = true) :
    gsstack_peek_count s = s.length := by
  cases s with
  | nil => rfl
  | cons n rest =>
    simp only [gsstack_wf, Bool.and_eq_true, beq_iff_eq] at h
    simp [gsstack_peek_count, h.1]

theorem gsstack_wf_tail (s : GSStack) (h : gsstack_wf s = true) :
    gsstack_wf s.tail = true := by
  cases s with
  | nil => rfl
  | cons n rest =>
    simp only [gsstack_wf, Bool.and_eq_true] at h
    exact h.2

theorem gsstack_wf_push (s : GSStack) (gs : GameState) (h : gsstack_wf s = true) :
    gsstack_wf (gsstack_push s gs) = true := by
  simp [gsstack_push, gsstack_wf, h, gsstack_wf_count s h]

theorem gsstack_wf_drop (s : GSStack) (k : Nat) (h : gsstack_wf s = true) :
    gsstack_wf (s.drop k) = true := by
  induction k generalizing s with
  | zero => simpa using h
  | succ k ih =>
    cases s with
    | nil => rfl
    | cons n rest => exact ih rest (gsstack_wf_tail (n :: rest) h)

theorem gsstack_wf_suffix (it s : GSStack) (hs : it <:+ s) (h : gsstack_wf s = true) :
    gsstack_wf it = true := by
  obtain ⟨pre, rfl⟩ := hs
  have := gsstack_wf_drop (pre ++ it) pre.length h
  simpa using this

/-- The first guard of `_do_undo` fails on a well-formed undo stack of two or
more nodes. -/
theorem do_undo_guard_false (mvhist : MovesHistory)
    (hwf : gsstack_wf mvhist.undo = true) (h2 : 2 ≤ mvhist.undo.length) :
    (mvhist_isempty_undo_stack mvhist || decide (mvhist_peek_undo_stack_count mvhist < 2))
      = false := by
  have hc := gsstack_wf_count mvhist.undo hwf
  have hne : mvhist.undo ≠ [] := by
    intro h
    rw [h] at h2
    simp at h2
  simp only [mvhist_isempty_undo_stack, mvhist_peek_undo_stack_count, hc, Bool.or_eq_false_iff,
    List.isEmpty_eq_false, ne_eq, decide_eq_false_iff_not, not_lt]
  exact ⟨hne, h2⟩

/-- The first guard of `_do_undo` holds on a well-formed undo stack of at most
one node. -/
theorem do_undo_guard_true (mvhist : MovesHistory)
    (hwf : gsstack_wf mvhist.undo = true) (h1 : mvhist.undo.length ≤ 1) :
    (mvhist_isempty_undo_stack mvhist || decide (mvhist_peek_undo_stack_count mvhist < 2))
      = true := by
  have hc := gsstack_wf_count mvhist.undo hwf
  simp only [mvhist_peek_undo_stack_count, hc, Bool.or_eq_true, decide_eq_true_eq]
  right
  omega

/-- An undo that is refused, in closed form. -/
theorem do_undo_refused_eq (gs : GameState) (mvhist : MovesHistory) (tui : Tui) (answer : Char)
    (hwf : gsstack_wf mvhist.undo = true) (h1 : mvhist.undo.length ≤ 1) :
    _do_undo gs mvhist tui answer
      = { gs := gs, mvhist := mvhist, tui := tui ++ [TuiCall.sys_beep 1] } := by
  have hg := do_undo_guard_true mvhist hwf h1
  simp only [_do_undo, hg, if_true]

/-- An undo that proceeds, in closed form. -/
theorem do_undo_proceeds (gs : GameState) (mvhist : MovesHistory) (tui : Tui) (answer : Char)
    (hwf : gsstack_wf mvhist.undo = true) (h2 : 2 ≤ mvhist.undo.length)
    (hok : mvhist.didundo = true ∨ answer.toLower = 'y') :
    _do_undo gs mvhist tui answer =
      { gs := (gsstack_peek_state mvhist.undo.tail).getD gs
        mvhist := { mvhist with didundo := true, redo := gsstack_push mvhist.redo gs,
                                undo := mvhist.undo.tail }
        tui := if mvhist.didundo = false then tui ++ [TuiCall.draw_iobar_prompt_undo] else tui } := by
  have hg := do_undo_guard_false mvhist hwf h2
  have hask : (mvhist_get_didundo mvhist == false && answer.toLower != 'y') = false := by
    rcases hok with h | h
    · simp [mvhist_get_didundo, h]
    · simp [h]
  unfold _do_undo
  simp only [hg, hask, Bool.false_eq_true, if_false]
  obtain ⟨didundo, undo, redo, replay, nm⟩ := mvhist
  cases didundo <;> cases undo with
  | nil => simp at h2
  | cons a rest =>
    cases rest with
    | nil => simp at h2
    | cons b rest =>
      simp [mvhist_get_didundo, mvhist_set_didundo, mvhist_push_redo_stack,
        mvhist_pop_undo_stack, mvhist_peek_undo_stack_state, gsstack_peek_state,
        gsstack_pop, gamestate_copy]

/-! ## C1 - C4: undo and redo -/

/-- C1: with a well-formed undo stack of at least 2 snapshots, and the undo
allowed to proceed (`didundo` already set, or the first undo confirmed with
`y`/`Y`), `_do_undo` sets `didundo`, pushes the live game-state onto `redo`
(one node more, stored count +1), pops `undo` (one node less, stored count -1)
and makes the new top snapshot of `undo` the live game-state. -/
theorem do_undo_effect (gs : GameState) (mvhist : MovesHistory) (tui : Tui) (answer : Char)
    (hwf : gsstack_wf mvhist.undo = true) (h2 : 2 ≤ mvhist.undo.length)
    (hok : mvhist.didundo = true ∨ answer.toLower = 'y') :
    (_do_undo gs mvhist tui answer).mvhist.didundo = true ∧
    (_do_undo gs mvhist tui answer).mvhist.redo = gsstack_push mvhist.redo gs ∧
    gsstack_peek_state (_do_undo gs mvhist tui answer).mvhist.redo = some gs ∧
    gsstack_peek_count (_do_undo gs mvhist tui answer).mvhist.redo
      = gsstack_peek_count mvhist.redo + 1 ∧
    (_do_undo gs mvhist tui answer).mvhist.redo.length = mvhist.redo.length + 1 ∧
    (_do_undo gs mvhist tui answer).mvhist.undo = mvhist.undo.tail ∧
    gsstack_peek_count (_do_undo gs mvhist tui answer).mvhist.undo + 1
      = gsstack_peek_count mvhist.undo ∧
    (_do_undo gs mvhist tui answer).mvhist.undo.length + 1 = mvhist.undo.length ∧
    gsstack_peek_state (_do_undo gs mvhist tui answer).mvhist.undo
      = some (_do_undo gs mvhist tui answer).gs := by
  rw [do_undo_proceeds gs mvhist tui answer hwf h2 hok]
  have hc := gsstack_wf_count mvhist.undo hwf
  have hc2 := gsstack_wf_count mvhist.undo.tail (gsstack_wf_tail _ hwf)
  refine ⟨rfl, rfl, rfl, rfl, ?_, rfl, ?_, ?_, ?_⟩
  · simp [gsstack_push]
  · simp only [hc, hc2, List.length_tail]
    omega
  · simp only [List.length_tail]
    omega
  · cases hu : mvhist.undo with
    | nil => simp [hu] at h2
    | cons a rest =>
      cases rest with
      | nil => simp [hu] at h2
      | cons b rest => simp [gsstack_peek_state]

/-- Witness of C1: the second move of the example session is undone. -/
theorem do_undo_effect_witness :
    gsstack_wf exPlay2.mvhist.undo = true ∧ 2 ≤ exPlay2.mvhist.undo.length ∧
    exUndo1.mvhist.didundo = true ∧
    gsstack_peek_state exUndo1.mvhist.redo = some exPlay2.gs ∧
    exUndo1.mvhist.undo.length + 1 = exPlay2.mvhist.undo.length ∧
    gsstack_peek_state exUndo1.mvhist.undo = some exUndo1.gs :=
  have h := do_undo_effect exPlay2.gs exPlay2.mvhist exPlay2.tui 'y' (by decide) (by decide)
    (Or.inr (by decide))
  ⟨by decide, by decide, h.1, h.2.2.1, h.2.2.2.2.2.2.2.1, h.2.2.2.2.2.2.2.2⟩

/-- C2: whenever undo is permitted (well-formed undo stack of at least 2
snapshots, `didundo` set or the undo confirmed), `_do_undo` followed at once by
`_do_redo` is accepted and restores the pre-undo live game-state: the whole
value, hence board, score, best score and previous move. -/
theorem undo_then_redo_restores (gs : GameState) (mvhist : MovesHistory) (tui : Tui)
    (answer : Char) (hwf : gsstack_wf mvhist.undo = true) (h2 : 2 ≤ mvhist.undo.length)
    (hok : mvhist.didundo = true ∨ answer.toLower = 'y') :
    (_do_redo (_do_undo gs mvhist tui answer).gs (_do_undo gs mvhist tui answer).mvhist
        (_do_undo gs mvhist tui answer).tui).gs = gs ∧
    (_do_redo (_do_undo gs mvhist tui answer).gs (_do_undo gs mvhist tui answer).mvhist
        (_do_undo gs mvhist tui answer).tui).gs.board = gs.board ∧
    (_do_redo (_do_undo gs mvhist tui answer).gs (_do_undo gs mvhist tui answer).mvhist
        (_do_undo gs mvhist tui answer).tui).gs.score = gs.score ∧
    (_do_redo (_do_undo gs mvhist tui answer).gs (_do_undo gs mvhist tui answer).mvhist
        (_do_undo gs mvhist tui answer).tui).gs.bestscore = gs.bestscore ∧
    (_do_redo (_do_undo gs mvhist tui answer).gs (_do_undo gs mvhist tui answer).mvhist
        (_do_undo gs mvhist tui answer).tui).gs.prevmove = gs.prevmove ∧
    (_do_redo (_do_undo gs mvhist tui answer).gs (_do_undo gs mvhist tui answer).mvhist
        (_do_undo gs mvhist tui answer).tui).tui = (_do_undo gs mvhist tui answer).tui := by
  rw [do_undo_proceeds gs mvhist tui answer hwf h2 hok]
  simp [_do_redo, mvhist_get_didundo, mvhist_isempty_redo_stack, gsstack_push,
    mvhist_peek_redo_stack_state, gsstack_peek_state, gamestate_copy]

/-- Witness of C2: undo then redo after the second move of the example session. -/
theorem undo_then_redo_restores_witness :
    gsstack_wf exPlay2.mvhist.undo = true ∧ 2 ≤ exPlay2.mvhist.undo.length ∧
    (_do_redo (_do_undo exPlay2.gs exPlay2.mvhist exPlay2.tui 'Y').gs
        (_do_undo exPlay2.gs exPlay2.mvhist exPlay2.tui 'Y').mvhist
        (_do_undo exPlay2.gs exPlay2.mvhist exPlay2.tui 'Y').tui).gs = exPlay2.gs :=
  ⟨by decide, by decide,
   (undo_then_redo_restores exPlay2.gs exPlay2.mvhist exPlay2.tui 'Y' (by decide) (by decide)
      (Or.inr (by decide))).1⟩

/-- A redo that is refused, in closed form. -/
theorem do_redo_refused (gs : GameState) (mvhist : MovesHistory) (tui : Tui)
    (h : mvhist.didundo = false ∨ mvhist.redo = []) :
    _do_redo gs mvhist tui = { gs := gs, mvhist := mvhist, tui := tui ++ [TuiCall.sys_beep 1] } := by
  have hg : (mvhist_get_didundo mvhist == false || mvhist_isempty_redo_stack mvhist) = true := by
    rcases h with h | h <;> simp [mvhist_get_didundo, mvhist_isempty_redo_stack, h]
  simp only [_do_redo, hg, if_true]

/-- A redo that proceeds, in closed form. -/
theorem do_redo_proceeds (gs : GameState) (mvhist : MovesHistory) (tui : Tui)
    (n : GSNode) (rest : GSStack) (hd : mvhist.didundo = true) (hr : mvhist.redo = n :: rest) :
    _do_redo gs mvhist tui =
      { gs := n.state
        mvhist := { mvhist with redo := rest, undo := gsstack_push mvhist.undo n.state }
        tui := tui } := by
  obtain ⟨didundo, undo, redo, replay, nm⟩ := mvhist
  simp only at hd hr
  subst hd hr
  simp [_do_redo, mvhist_get_didundo, mvhist_isempty_redo_stack, mvhist_peek_redo_stack_state,
    gsstack_peek_state, gamestate_copy, mvhist_pop_redo_stack, gsstack_pop,
    mvhist_push_undo_stack]

/-- C3: `_do_redo` is refused (a beep, with the live game-state and the whole
moves-history, so `undo`, `redo` and `didundo`, unchanged) exactly when
`didundo` is false or `redo` is empty.  Otherwise the top snapshot of `redo`
becomes the live game-state, `redo` loses its top node (one node less; stored
count -1 on a well-formed stack) and the same state is pushed onto `undo` (one
node more, stored count +1). -/
theorem do_redo_cases (gs : GameState) (mvhist : MovesHistory) (tui : Tui) :
    ((mvhist.didundo = false ∨ mvhist.redo = []) →
      (_do_redo gs mvhist tui).gs = gs ∧
      (_do_redo gs mvhist tui).mvhist = mvhist ∧
      (_do_redo gs mvhist tui).tui = tui ++ [TuiCall.sys_beep 1]) ∧
    (¬ (mvhist.didundo = false ∨ mvhist.redo = []) →
      gsstack_peek_state mvhist.redo = some (_do_redo gs mvhist tui).gs ∧
      (_do_redo gs mvhist tui).mvhist.redo = mvhist.redo.tail ∧
      (_do_redo gs mvhist tui).mvhist.redo.length + 1 = mvhist.redo.length ∧
      (gsstack_wf mvhist.redo = true →
        gsstack_peek_count (_do_redo gs mvhist tui).mvhist.redo + 1
          = gsstack_peek_count mvhist.redo) ∧
      (_do_redo gs mvhist tui).mvhist.undo
        = gsstack_push mvhist.undo (_do_redo gs mvhist tui).gs ∧
      (_do_redo gs mvhist tui).mvhist.undo.length = mvhist.undo.length + 1 ∧
      gsstack_peek_count (_do_redo gs mvhist tui).mvhist.undo
        = gsstack_peek_count mvhist.undo + 1 ∧
      (_do_redo gs mvhist tui).mvhist.didundo = mvhist.didundo ∧
      (_do_redo gs mvhist tui).tui = tui) ∧
    (((_do_redo gs mvhist tui).gs = gs ∧ (_do_redo gs mvhist tui).mvhist = mvhist)
      ↔ (mvhist.didundo = false ∨ mvhist.redo = [])) := by
  have hacc : ¬ (mvhist.didundo = false ∨ mvhist.redo = []) →
      ∃ n rest, mvhist.didundo = true ∧ mvhist.redo = n :: rest := by
    intro h
    rw [not_or] at h
    cases hr : mvhist.redo with
    | nil => exact absurd hr h.2
    | cons n rest => exact ⟨n, rest, by simpa using h.1, rfl⟩
  refine ⟨?_, ?_, ?_⟩
  · intro h
    rw [do_redo_refused gs mvhist tui h]
    exact ⟨rfl, rfl, rfl⟩
  · intro h
    obtain ⟨n, rest, hd, hr⟩ := hacc h
    rw [do_redo_proceeds gs mvhist tui n rest hd hr]
    refine ⟨by simp [hr, gsstack_peek_state], by simp [hr], by simp [hr], ?_, rfl,
      by simp [gsstack_push], rfl, rfl, rfl⟩
    intro hwf
    have h1 := gsstack_wf_count mvhist.redo hwf
    have h2 := gsstack_wf_count rest (by simpa [hr] using gsstack_wf_tail mvhist.redo hwf)
    rw [hr] at h1
    simp only [h1, h2, hr, List.length_cons]
  · constructor
    · intro hsame
      by_contra h
      obtain ⟨n, rest, hd, hr⟩ := hacc h
      rw [do_redo_proceeds gs mvhist tui n rest hd hr] at hsame
      have := congrArg (fun m => m.undo.length) hsame.2
      simp [gsstack_push] at this
    · intro h
      rw [do_redo_refused gs mvhist tui h]
      exact ⟨rfl, rfl⟩

/-- Witness of C3: a redo before any undo is refused; the redo after the first
undo of the example session is accepted. -/
theorem do_redo_cases_witness :
    (_do_redo exPlay2.gs exPlay2.mvhist exPlay2.tui).mvhist = exPlay2.mvhist ∧
    gsstack_peek_state exUndo1.mvhist.redo
      = some (_do_redo exUndo1.gs exUndo1.mvhist exUndo1.tui).gs ∧
    gsstack_peek_count (_do_redo exUndo1.gs exUndo1.mvhist exUndo1.tui).mvhist.redo + 1
      = gsstack_peek_count exUndo1.mvhist.redo :=
  ⟨((do_redo_cases exPlay2.gs exPlay2.mvhist exPlay2.tui).1 (Or.inl (by decide))).2.1,
   ((do_redo_cases exUndo1.gs exUndo1.mvhist exUndo1.tui).2.1 (by decide)).1,
   ((do_redo_cases exUndo1.gs exUndo1.mvhist exUndo1.tui).2.1 (by decide)).2.2.2.1 (by decide)⟩

/-- C4: on a (well-formed) undo stack that is empty or holds one snapshot,
`_do_undo` is refused: the live game-state and the moves-history (`undo`,
`redo`, `didundo`) are as before, and the only call on the user interface is
the beep, so no confirmation is requested. -/
theorem do_undo_refused (gs : GameState) (mvhist : MovesHistory) (tui : Tui) (answer : Char)
    (hwf : gsstack_wf mvhist.undo = true) (h1 : mvhist.undo.length ≤ 1) :
    (_do_undo gs mvhist tui answer).gs = gs ∧
    (_do_undo gs mvhist tui answer).mvhist = mvhist ∧
    (_do_undo gs mvhist tui answer).mvhist.undo = mvhist.undo ∧
    (_do_undo gs mvhist tui answer).mvhist.redo = mvhist.redo ∧
    (_do_undo gs mvhist tui answer).mvhist.didundo = mvhist.didundo ∧
    (_do_undo gs mvhist tui answer).tui = tui ++ [TuiCall.sys_beep 1] ∧
    TuiCall.draw_iobar_prompt_undo ∉ (_do_undo gs mvhist tui answer).tui.drop tui.length := by
  rw [do_undo_refused_eq gs mvhist tui answer hwf h1]
  simp

/-- Witness of C4: an undo at the start of the example session, where `undo`
holds the initial snapshot only, is refused even if the player would confirm. -/
theorem do_undo_refused_witness :
    gsstack_wf exMv0.undo = true ∧ exMv0.undo.length ≤ 1 ∧
    (_do_undo exGs0 exMv0 [] 'y').gs = exGs0 ∧
    (_do_undo exGs0 exMv0 [] 'y').mvhist = exMv0 ∧
    (_do_undo exGs0 exMv0 [] 'y').tui = [TuiCall.sys_beep 1] :=
  have h := do_undo_refused exGs0 exMv0 [] 'y' (by decide) (by decide)
  ⟨by decide, by decide, h.1, h.2.1, h.2.2.2.2.2.1⟩

/-! ## C5 - C7: playing a move -/

/-- The result of `board_has_room`, in words: some cell of the grid is empty. -/
theorem board_has_room_iff (b : Board) :
    board_has_room b = true ↔
      ∃ i j, i < b.dim ∧ j < b.dim ∧ board_get_tile b i j = 0 := by
  simp only [board_has_room, List.any_eq_true, List.mem_range, beq_iff_eq]
  constructor
  · rintro ⟨i, hi, j, hj, h⟩
    exact ⟨i, j, hi, hj, h⟩
  · rintro ⟨i, j, hi, hj, h⟩
    exact ⟨i, hi, j, hj, h⟩

/-- The result of `board_has_adjacent`, in words: some non-empty cell equals its
right or its lower neighbour. -/
theorem board_has_adjacent_iff (b : Board) :
    board_has_adjacent b = true ↔
      ∃ i j, i < b.dim ∧ j < b.dim ∧ board_get_tile b i j ≠ 0 ∧
        ((j + 1 < b.dim ∧ board_get_tile b i j = board_get_tile b i (j + 1)) ∨
         (i + 1 < b.dim ∧ board_get_tile b i j = board_get_tile b (i + 1) j)) := by
  simp only [board_has_adjacent, List.any_eq_true, List.mem_range, Bool.and_eq_true,
    Bool.or_eq_true, bne_iff_ne, ne_eq, decide_eq_true_eq, beq_iff_eq]
  constructor
  · rintro ⟨i, hi, j, hj, h⟩
    exact ⟨i, j, hi, hj, h⟩
  · rintro ⟨i, j, hi, hj, h⟩
    exact ⟨i, hi, j, hj, h⟩

/-- The board that `_do_play_board` leaves in the live game-state: the moved
board, with the spawned tiles when the move moved without winning. -/
theorem play_board_board (K : TuiKeys) (key : Int) (gs : GameState) (mvhist : MovesHistory)
    (tui : Tui) (rnd : List Nat) :
    (_do_play_board K key gs mvhist tui rnd).gs.board =
      if (_do_play_board_move K key gs.board gs.score).iswin = false ∧
         (_do_play_board_move K key gs.board gs.score).moved = true then
        board_generate_ntiles (_do_play_board_move K key gs.board gs.score).board
          (_do_play_board_move K key gs.board gs.score).board.nrandom rnd
      else (_do_play_board_move K key gs.board gs.score).board := by
  cases hw : (_do_play_board_move K key gs.board gs.score).iswin <;>
  cases hm : (_do_play_board_move K key gs.board gs.score).moved <;>
    simp [_do_play_board, gamestate_get_board, gamestate_get_score, gamestate_get_bestscore,
      hw, hm, gamestate_set_score, gamestate_set_bestscore, gamestate_set_prevmove,
      board_get_nrandom, apply_ite GameState.board]

/-- The value `_do_play_board` returns, in terms of the board it leaves. -/
theorem play_board_return (K : TuiKeys) (key : Int) (gs : GameState) (mvhist : MovesHistory)
    (tui : Tui) (rnd : List Nat) :
    (_do_play_board K key gs mvhist tui rnd).gameover =
      ((_do_play_board_move K key gs.board gs.score).iswin ||
        !(board_has_adjacent (_do_play_board K key gs mvhist tui rnd).gs.board ||
          board_has_room (_do_play_board K key gs mvhist tui rnd).gs.board)) := by
  cases hw : (_do_play_board_move K key gs.board gs.score).iswin <;>
  cases hm : (_do_play_board_move K key gs.board gs.score).moved <;>
    simp [_do_play_board, gamestate_get_board, gamestate_get_score, gamestate_get_bestscore,
      hw, hm]

/-- `board_is_full` is what `board_has_room` denies. -/
theorem board_is_full_iff (b : Board) : board_is_full b ↔ board_has_room b = false := by
  rw [← Bool.not_eq_true, board_has_room_iff]
  unfold board_is_full
  constructor
  · rintro h ⟨i, j, hi, hj, h0⟩
    exact h i j hi hj h0
  · intro h i j hi hj h0
    exact h ⟨i, j, hi, hj, h0⟩

/-- `board_has_equal_pair` is what `board_has_adjacent` reports. -/
theorem board_has_equal_pair_iff (b : Board) :
    board_has_equal_pair b ↔ board_has_adjacent b = true :=
  (board_has_adjacent_iff b).symm

/-- C5: `_do_play_board` returns game-over exactly when the move it played set
`iswin`, or the board it leaves (the moved board, with the spawned tiles when
the move moved without winning) is full and has no pair of equal adjacent
non-zero tiles.  So a full board without an equal adjacent pair is game-over, a
full board with such a pair is not game-over unless the move won, and a winning
move is game-over whatever the board. -/
theorem play_board_gameover (K : TuiKeys) (key : Int) (gs : GameState) (mvhist : MovesHistory)
    (tui : Tui) (rnd : List Nat) :
    ((_do_play_board K key gs mvhist tui rnd).gameover = true ↔
      ((_do_play_board_move K key gs.board gs.score).iswin = true ∨
        (board_is_full (_do_play_board K key gs mvhist tui rnd).gs.board ∧
         ¬ board_has_equal_pair (_do_play_board K key gs mvhist tui rnd).gs.board))) ∧
    (board_is_full (_do_play_board K key gs mvhist tui rnd).gs.board →
      ¬ board_has_equal_pair (_do_play_board K key gs mvhist tui rnd).gs.board →
      (_do_play_board K key gs mvhist tui rnd).gameover = true) ∧
    ((_do_play_board_move K key gs.board gs.score).iswin = false →
      board_has_equal_pair (_do_play_board K key gs mvhist tui rnd).gs.board →
      (_do_play_board K key gs mvhist tui rnd).gameover = false) ∧
    ((_do_play_board_move K key gs.board gs.score).iswin = true →
      (_do_play_board K key gs mvhist tui rnd).gameover = true) ∧
    (_do_play_board K key gs mvhist tui rnd).gs.board =
      (if (_do_play_board_move K key gs.board gs.score).iswin = false ∧
          (_do_play_board_move K key gs.board gs.score).moved = true then
        board_generate_ntiles (_do_play_board_move K key gs.board gs.score).board
          (_do_play_board_move K key gs.board gs.score).board.nrandom rnd
      else (_do_play_board_move K key gs.board gs.score).board) := by
  have hret := play_board_return K key gs mvhist tui rnd
  have hiff : (_do_play_board K key gs mvhist tui rnd).gameover = true ↔
      ((_do_play_board_move K key gs.board gs.score).iswin = true ∨
        (board_is_full (_do_play_board K key gs mvhist tui rnd).gs.board ∧
         ¬ board_has_equal_pair (_do_play_board K key gs mvhist tui rnd).gs.board)) := by
    rw [hret, board_is_full_iff, board_has_equal_pair_iff]
    cases (_do_play_board_move K key gs.board gs.score).iswin <;>
    cases board_has_adjacent (_do_play_board K key gs mvhist tui rnd).gs.board <;>
    cases board_has_room (_do_play_board K key gs mvhist tui rnd).gs.board <;> simp
  refine ⟨hiff, ?_, ?_, ?_, play_board_board K key gs mvhist tui rnd⟩
  · intro hf hn
    exact hiff.2 (Or.inr ⟨hf, hn⟩)
  · intro hw hp
    rw [← Bool.not_eq_true, hiff]
    rintro (h | h)
    · rw [hw] at h
      exact Bool.false_ne_true h
    · exact h.2 hp
  · intro hw
    exact hiff.2 (Or.inl hw)

/-- Witness of C5: a move on a stuck full board is game-over, a move on a full
board with two equal neighbours is not, and a winning move is game-over with
half of the board empty. -/
theorem play_board_gameover_witness :
    (_do_play_board exKeys 3 (exGsOn exBoardStuck) (exMvOn (exGsOn exBoardStuck)) [] []).gameover
      = true ∧
    (_do_play_board exKeys 3 (exGsOn exBoardFull) (exMvOn (exGsOn exBoardFull)) [] []).gameover
      = false ∧
    (_do_play_board exKeys 3 (exGsOn exBoardWin) (exMvOn (exGsOn exBoardWin)) [] []).gameover
      = true :=
  ⟨(play_board_gameover exKeys 3 (exGsOn exBoardStuck) (exMvOn (exGsOn exBoardStuck)) [] []).2.1
      ((board_is_full_iff _).2 (by decide))
      (fun h => absurd ((board_has_equal_pair_iff _).1 h) (by decide)),
   (play_board_gameover exKeys 3 (exGsOn exBoardFull) (exMvOn (exGsOn exBoardFull)) [] []).2.2.1
      (by decide) ((board_has_equal_pair_iff _).2 (by decide)),
   (play_board_gameover exKeys 3 (exGsOn exBoardWin) (exMvOn (exGsOn exBoardWin)) [] []).2.2.2.1
      (by decide)⟩

/-- The score and best score that `_do_play_board` leaves in the live game-state. -/
theorem play_board_scores (K : TuiKeys) (key : Int) (gs : GameState) (mvhist : MovesHistory)
    (tui : Tui) (rnd : List Nat) :
    (_do_play_board K key gs mvhist tui rnd).gs.score
      = (_do_play_board_move K key gs.board gs.score).score ∧
    (_do_play_board K key gs mvhist tui rnd).gs.bestscore
      = if mvhist.didundo = false ∧
          gs.bestscore < (_do_play_board_move K key gs.board gs.score).score
        then (_do_play_board_move K key gs.board gs.score).score else gs.bestscore := by
  cases hw : (_do_play_board_move K key gs.board gs.score).iswin <;>
  cases hm : (_do_play_board_move K key gs.board gs.score).moved <;>
  cases hd : mvhist.didundo <;>
  by_cases hlt : gs.bestscore < (_do_play_board_move K key gs.board gs.score).score <;>
    simp [_do_play_board, gamestate_get_board, gamestate_get_score, gamestate_get_bestscore,
      mvhist_get_didundo, hw, hm, hd, hlt, gamestate_set_score, gamestate_set_bestscore,
      gamestate_set_prevmove]

/-- Counterexample to C6: in the example session `didundo` is set by the first
undo, which leaves the live best score at 4; the next undo lowers it to 0 and
the redo after that raises it to 4 again. -/
theorem bestscore_not_frozen_by_undo_redo :
    exUndo1.mvhist.didundo = true ∧
    exUndo1.gs.bestscore = 4 ∧
    (_do_undo exUndo1.gs exUndo1.mvhist exUndo1.tui 'n').gs.bestscore = 0 ∧
    (_do_undo exUndo1.gs exUndo1.mvhist exUndo1.tui 'n').mvhist.didundo = true ∧
    (_do_redo (_do_undo exUndo1.gs exUndo1.mvhist exUndo1.tui 'n').gs
        (_do_undo exUndo1.gs exUndo1.mvhist exUndo1.tui 'n').mvhist
        (_do_undo exUndo1.gs exUndo1.mvhist exUndo1.tui 'n').tui).gs.bestscore = 4 := by
  decide

/-- C6, amended: once `didundo` is set, a move leaves the live best score as it
was, and so does a refused undo or redo; an undo that proceeds makes it the
best score stored in the new top snapshot of `undo`, and a redo that proceeds
the best score stored in the top snapshot of `redo`. -/
theorem bestscore_after_didundo (K : TuiKeys) (key : Int) (gs : GameState)
    (mvhist : MovesHistory) (tui : Tui) (rnd : List Nat) (answer : Char)
    (hd : mvhist.didundo = true) :
    (_do_play_board K key gs mvhist tui rnd).gs.bestscore = gs.bestscore ∧
    (gsstack_wf mvhist.undo = true → mvhist.undo.length ≤ 1 →
      (_do_undo gs mvhist tui answer).gs.bestscore = gs.bestscore) ∧
    (gsstack_wf mvhist.undo = true → 2 ≤ mvhist.undo.length →
      (gsstack_peek_state mvhist.undo.tail).map GameState.bestscore
        = some (_do_undo gs mvhist tui answer).gs.bestscore) ∧
    (mvhist.redo = [] → (_do_redo gs mvhist tui).gs.bestscore = gs.bestscore) ∧
    (∀ n rest, mvhist.redo = n :: rest →
      (_do_redo gs mvhist tui).gs.bestscore = n.state.bestscore) := by
  refine ⟨?_, ?_, ?_, ?_, ?_⟩
  · rw [(play_board_scores K key gs mvhist tui rnd).2]
    simp [hd]
  · intro hwf h1
    rw [do_undo_refused_eq gs mvhist tui answer hwf h1]
  · intro hwf h2
    rw [do_undo_proceeds gs mvhist tui answer hwf h2 (Or.inl hd)]
    cases hu : mvhist.undo with
    | nil => simp [hu] at h2
    | cons a rest =>
      cases rest with
      | nil => simp [hu] at h2
      | cons b rest => simp [gsstack_peek_state]
  · intro hr
    rw [do_redo_refused gs mvhist tui (Or.inr hr)]
  · intro n rest hr
    rw [do_redo_proceeds gs mvhist tui n rest hd hr]

/-- Witness of C6, amended: the second undo of the example session, made with
`didundo` set, takes the best score of the snapshot below. -/
theorem bestscore_after_didundo_witness :
    exUndo1.mvhist.didundo = true ∧
    (gsstack_peek_state exUndo1.mvhist.undo.tail).map GameState.bestscore
      = some (_do_undo exUndo1.gs exUndo1.mvhist exUndo1.tui 'n').gs.bestscore ∧
    (_do_play_board exKeys 3 exUndo1.gs exUndo1.mvhist exUndo1.tui [0, 0]).gs.bestscore
      = exUndo1.gs.bestscore :=
  have h := bestscore_after_didundo exKeys 3 exUndo1.gs exUndo1.mvhist exUndo1.tui [0, 0] 'n'
    (by decide)
  ⟨by decide, h.2.2.1 (by decide) (by decide), h.1⟩

/-- C7: a move played while `didundo` is false leaves the best score equal to
the larger of the best score before the move and the score after it; so the
best score does not decrease, and where it changes the new score exceeds the
old best score and is the new best score. -/
theorem play_board_bestscore_max (K : TuiKeys) (key : Int) (gs : GameState)
    (mvhist : MovesHistory) (tui : Tui) (rnd : List Nat) (hd : mvhist.didundo = false) :
    (_do_play_board K key gs mvhist tui rnd).gs.bestscore
      = max gs.bestscore (_do_play_board K key gs mvhist tui rnd).gs.score ∧
    gs.bestscore ≤ (_do_play_board K key gs mvhist tui rnd).gs.bestscore ∧
    ((_do_play_board K key gs mvhist tui rnd).gs.bestscore ≠ gs.bestscore →
      gs.bestscore < (_do_play_board K key gs mvhist tui rnd).gs.score ∧
      (_do_play_board K key gs mvhist tui rnd).gs.bestscore
        = (_do_play_board K key gs mvhist tui rnd).gs.score) := by
  obtain ⟨hs, hb⟩ := play_board_scores K key gs mvhist tui rnd
  rw [hb, hs]
  by_cases hlt : gs.bestscore < (_do_play_board_move K key gs.board gs.score).score
  · rw [if_pos ⟨hd, hlt⟩]
    refine ⟨?_, le_of_lt hlt, fun _ => ⟨hlt, rfl⟩⟩
    rw [max_eq_right (le_of_lt hlt)]
  · rw [if_neg (fun h => hlt h.2)]
    refine ⟨?_, le_refl _, fun h => absurd rfl h⟩
    rw [max_eq_left (not_lt.1 hlt)]

/-- Witness of C7: the first move of the example session raises the best score
from 0 to the new score 4. -/
theorem play_board_bestscore_max_witness :
    exMv0.didundo = false ∧ exPlay1.gs.score = 4 ∧
    exPlay1.gs.bestscore = max exGs0.bestscore exPlay1.gs.score :=
  ⟨by decide, by decide,
   (play_board_bestscore_max exKeys 3 exGs0 exMv0 [] [0, 9] (by decide)).1⟩

/-! ## Well-formed stacks are what the driver keeps -/

/-- The moves-history that `_do_play_board` leaves: the resulting live game-state
is pushed onto `undo` when the move won or moved, and nothing else changes. -/
theorem play_board_mvhist (K : TuiKeys) (key : Int) (gs : GameState) (mvhist : MovesHistory)
    (tui : Tui) (rnd : List Nat) :
    (_do_play_board K key gs mvhist tui rnd).mvhist =
      if (_do_play_board_move K key gs.board gs.score).iswin = true ∨
         (_do_play_board_move K key gs.board gs.score).moved = true then
        mvhist_push_undo_stack mvhist (_do_play_board K key gs mvhist tui rnd).gs
      else mvhist := by
  cases hw : (_do_play_board_move K key gs.board gs.score).iswin <;>
  cases hm : (_do_play_board_move K key gs.board gs.score).moved <;>
    simp [_do_play_board, gamestate_get_board, gamestate_get_score, gamestate_get_bestscore,
      hw, hm]

/-- A move keeps the undo and redo stacks well-formed. -/
theorem play_board_wf (K : TuiKeys) (key : Int) (gs : GameState) (mvhist : MovesHistory)
    (tui : Tui) (rnd : List Nat) (hu : gsstack_wf mvhist.undo = true)
    (hr : gsstack_wf mvhist.redo = true) :
    gsstack_wf (_do_play_board K key gs mvhist tui rnd).mvhist.undo = true ∧
    gsstack_wf (_do_play_board K key gs mvhist tui rnd).mvhist.redo = true := by
  rw [play_board_mvhist]
  split
  · exact ⟨gsstack_wf_push _ _ hu, hr⟩
  · exact ⟨hu, hr⟩

/-- An undo keeps the undo and redo stacks well-formed. -/
theorem do_undo_wf (gs : GameState) (mvhist : MovesHistory) (tui : Tui) (answer : Char)
    (hu : gsstack_wf mvhist.undo = true) (hr : gsstack_wf mvhist.redo = true) :
    gsstack_wf (_do_undo gs mvhist tui answer).mvhist.undo = true ∧
    gsstack_wf (_do_undo gs mvhist tui answer).mvhist.redo = true := by
  by_cases h2 : 2 ≤ mvhist.undo.length
  · by_cases hok : mvhist.didundo = true ∨ answer.toLower = 'y'
    · rw [do_undo_proceeds gs mvhist tui answer hu h2 hok]
      exact ⟨gsstack_wf_tail _ hu, gsstack_wf_push _ _ hr⟩
    · rw [not_or] at hok
      have hg := do_undo_guard_false mvhist hu h2
      have hd : mvhist.didundo = false := by simpa using hok.1
      have hask : (mvhist_get_didundo mvhist == false && answer.toLower != 'y') = true := by
        simp [mvhist_get_didundo, hd, hok.2]
      simp only [_do_undo, hg, hask, Bool.false_eq_true, if_false, if_true]
      exact ⟨hu, hr⟩
  · rw [do_undo_refused_eq gs mvhist tui answer hu (by omega)]
    exact ⟨hu, hr⟩

/-- A redo keeps the undo and redo stacks well-formed. -/
theorem do_redo_wf (gs : GameState) (mvhist : MovesHistory) (tui : Tui)
    (hu : gsstack_wf mvhist.undo = true) (hr : gsstack_wf mvhist.redo = true) :
    gsstack_wf (_do_redo gs mvhist tui).mvhist.undo = true ∧
    gsstack_wf (_do_redo gs mvhist tui).mvhist.redo = true := by
  by_cases h : mvhist.didundo = false ∨ mvhist.redo = []
  · rw [do_redo_refused gs mvhist tui h]
    exact ⟨hu, hr⟩
  · rw [not_or] at h
    cases hrd : mvhist.redo with
    | nil => exact absurd hrd h.2
    | cons n rest =>
      rw [do_redo_proceeds gs mvhist tui n rest (by simpa using h.1) hrd]
      refine ⟨gsstack_wf_push _ _ hu, ?_⟩
      have := gsstack_wf_tail mvhist.redo hr
      rw [hrd] at this
      exact this

/-! ## C8 - C10: replay -/

theorem undo_chronological_pushes (mv : MovesHistory) (states : List GameState) :
    undo_chronological (states.foldl mvhist_push_undo_stack mv)
      = undo_chronological mv ++ states := by
  induction states generalizing mv with
  | nil => simp
  | cons s rest ih =>
    rw [List.foldl_cons, ih]
    simp [undo_chronological, mvhist_push_undo_stack, gsstack_push]

theorem replay_fold_states (u acc : GSStack) :
    (u.foldl (fun a n => gsstack_push a n.state) acc).map GSNode.state
      = (u.map GSNode.state).reverse ++ acc.map GSNode.state := by
  induction u generalizing acc with
  | nil => simp
  | cons n rest ih =>
    rw [List.foldl_cons, ih]
    simp [gsstack_push]

theorem replay_fold_wf (u acc : GSStack) (h : gsstack_wf acc = true) :
    gsstack_wf (u.foldl (fun a n => gsstack_push a n.state) acc) = true := by
  induction u generalizing acc with
  | nil => simpa using h
  | cons n rest ih =>
    rw [List.foldl_cons]
    exact ih _ (gsstack_wf_push acc n.state h)

theorem new_replay_stack_states (mv : MovesHistory) (delay : Nat) :
    (mvhist_new_replay_stack mv delay).replay.map GSNode.state = undo_chronological mv := by
  simp [mvhist_new_replay_stack, undo_chronological, replay_fold_states]

theorem new_replay_stack_wf (mv : MovesHistory) (delay : Nat) :
    gsstack_wf (mvhist_new_replay_stack mv delay).replay = true :=
  replay_fold_wf mv.undo [] rfl

theorem new_replay_stack_length (mv : MovesHistory) (delay : Nat) :
    (mvhist_new_replay_stack mv delay).replay.length = mv.undo.length := by
  have h := congrArg List.length (new_replay_stack_states mv delay)
  simpa [undo_chronological] using h

theorem new_replay_stack_nmoves (mv : MovesHistory) (delay : Nat) :
    (mvhist_new_replay_stack mv delay).replay_nmoves = mv.undo.length := by
  rw [← new_replay_stack_length mv delay]
  exact gsstack_wf_count _ (new_replay_stack_wf mv delay)

theorem replay_cursor_at_eq_drop (mv : MovesHistory) (k : Nat) :
    replay_cursor_at mv k = mv.replay.drop k := by
  unfold replay_cursor_at mvhist_iter_top_replay_stack
  generalize mv.replay = s
  induction k generalizing s with
  | zero => rfl
  | succ k ih =>
    rw [Function.iterate_succ_apply, ih]
    cases s <;> simp [mvhist_iter_down_replay_stack]

theorem gsstack_peek_state_drop (s : GSStack) (k : Nat) :
    gsstack_peek_state (s.drop k) = (s.map GSNode.state)[k]? := by
  induction k generalizing s with
  | zero => cases s <;> simp [gsstack_peek_state]
  | succ k ih =>
    cases s with
    | nil => simp [gsstack_peek_state]
    | cons n rest => simpa using ih rest

theorem gsstack_peek_count_drop (s : GSStack) (k : Nat) (h : gsstack_wf s = true) :
    gsstack_peek_count (s.drop k) = s.length - k := by
  rw [gsstack_wf_count _ (gsstack_wf_drop s k h), List.length_drop]

/-- A replay step from a cursor that is not on the bottom node, in closed form. -/
theorem do_replay_next_steps (it : GSStack) (gs : GameState) (mvhist : MovesHistory) (tui : Tui)
    (h : gsstack_peek_count it ≠ 1) :
    _do_replay_next it gs mvhist tui =
      { it := it.tail
        gs := gamestate_copy gs (gsstack_peek_state it.tail)
        tui := tui ++ [TuiCall.redraw 0 (gamestate_copy gs (gsstack_peek_state it.tail))] } := by
  simp [_do_replay_next, h, mvhist_iter_down_replay_stack]

/-- C8: for any moves-history, `mvhist_new_replay_stack` builds a (well-formed)
replay stack with as many nodes as `undo` holds snapshots and sets
`replay_nmoves` to that number N.  The cursor that starts at `iter_top` and is
moved by `iter_down` is, after `k < N` steps, on the `k`-th snapshot in the
chronological order of `undo` (bottom to top, which is the order of the pushes),
reaches `iter_bottom` after N - 1 steps and `NULL` after N.  `_do_replay` enters
on the first snapshot and each `_do_replay_next` short of the end moves the
cursor and the live game-state to the next one. -/
theorem replay_fidelity (mv : MovesHistory) (delay : Nat) (states : List GameState) :
    undo_chronological (states.foldl mvhist_push_undo_stack mv)
      = undo_chronological mv ++ states ∧
    (undo_chronological mv).length = mv.undo.length ∧
    (mvhist_new_replay_stack mv delay).replay.length = mv.undo.length ∧
    (mvhist_new_replay_stack mv delay).replay_nmoves = mv.undo.length ∧
    gsstack_wf (mvhist_new_replay_stack mv delay).replay = true ∧
    (∀ k, k < mv.undo.length →
      gsstack_peek_state (replay_cursor_at (mvhist_new_replay_stack mv delay) k)
        = (undo_chronological mv)[k]? ∧
      gsstack_peek_count (replay_cursor_at (mvhist_new_replay_stack mv delay) k)
        = mv.undo.length - k) ∧
    replay_cursor_at (mvhist_new_replay_stack mv delay) (mv.undo.length - 1)
      = mvhist_iter_bottom_replay_stack (mvhist_new_replay_stack mv delay) ∧
    replay_cursor_at (mvhist_new_replay_stack mv delay) mv.undo.length = [] ∧
    (0 < mv.undo.length → ∀ gs tui, ∃ st,
      _do_replay_enter gs mv tui = some (st, mvhist_new_replay_stack mv 750) ∧
      st.it = replay_cursor_at (mvhist_new_replay_stack mv 750) 0 ∧
      some st.gs = (undo_chronological mv)[0]?) ∧
    (∀ k, k + 1 < mv.undo.length → ∀ gs tui,
      (_do_replay_next (replay_cursor_at (mvhist_new_replay_stack mv delay) k) gs
          (mvhist_new_replay_stack mv delay) tui).it
        = replay_cursor_at (mvhist_new_replay_stack mv delay) (k + 1) ∧
      some (_do_replay_next (replay_cursor_at (mvhist_new_replay_stack mv delay) k) gs
          (mvhist_new_replay_stack mv delay) tui).gs
        = (undo_chronological mv)[k + 1]?) := by
  have hlen := new_replay_stack_length mv delay
  have hwf := new_replay_stack_wf mv delay
  have hst := new_replay_stack_states mv delay
  have hstate : ∀ d k, gsstack_peek_state (replay_cursor_at (mvhist_new_replay_stack mv d) k)
      = (undo_chronological mv)[k]? := by
    intro d k
    rw [replay_cursor_at_eq_drop, gsstack_peek_state_drop, new_replay_stack_states]
  have hchron : (undo_chronological mv).length = mv.undo.length := by
    simp [undo_chronological]
  refine ⟨undo_chronological_pushes mv states, hchron, hlen,
    new_replay_stack_nmoves mv delay, hwf, ?_, ?_, ?_, ?_, ?_⟩
  · intro k _
    refine ⟨hstate delay k, ?_⟩
    rw [replay_cursor_at_eq_drop, gsstack_peek_count_drop _ _ hwf, hlen]
  · rw [replay_cursor_at_eq_drop, mvhist_iter_bottom_replay_stack, hlen]
  · rw [replay_cursor_at_eq_drop, ← hlen, List.drop_length]
  · intro hpos gs tui
    have hl := new_replay_stack_length mv 750
    have hne : (mvhist_new_replay_stack mv 750).replay.isEmpty = false := by
      rw [List.isEmpty_eq_false]
      intro h
      rw [h] at hl
      simp at hl
      omega
    have h0 := hstate 750 0
    have hsome : ∃ s, (undo_chronological mv)[0]? = some s := by
      cases hc : (undo_chronological mv)[0]? with
      | some s => exact ⟨s, rfl⟩
      | none =>
        rw [List.getElem?_eq_none_iff] at hc
        omega
    obtain ⟨s, hs⟩ := hsome
    rw [hs] at h0
    rw [replay_cursor_at_eq_drop, List.drop_zero] at h0
    refine ⟨{ it := (mvhist_new_replay_stack mv 750).replay, gs := s,
              tui := tui ++ [TuiCall.redraw 0 s, TuiCall.draw_iobar2_replaynavigation] },
      ?_, ?_, ?_⟩
    · simp only [_do_replay_enter, mvhist_iter_top_replay_stack, hne, Bool.false_eq_true,
        if_false, h0, gamestate_copy]
    · rw [replay_cursor_at_eq_drop, List.drop_zero]
    · rw [hs]
  · intro k hk gs tui
    have hcnt : gsstack_peek_count (replay_cursor_at (mvhist_new_replay_stack mv delay) k) ≠ 1 := by
      rw [replay_cursor_at_eq_drop, gsstack_peek_count_drop _ _ hwf, hlen]
      omega
    rw [do_replay_next_steps _ _ _ _ hcnt]
    have htail : (replay_cursor_at (mvhist_new_replay_stack mv delay) k).tail
        = replay_cursor_at (mvhist_new_replay_stack mv delay) (k + 1) := by
      rw [replay_cursor_at_eq_drop, replay_cursor_at_eq_drop, List.tail_drop]
    rw [htail]
    refine ⟨rfl, ?_⟩
    show some (gamestate_copy gs
      (gsstack_peek_state (replay_cursor_at (mvhist_new_replay_stack mv delay) (k + 1)))) = _
    have h1 := hstate delay (k + 1)
    have hsome : ∃ s, (undo_chronological mv)[k + 1]? = some s := by
      cases hc : (undo_chronological mv)[k + 1]? with
      | some s => exact ⟨s, rfl⟩
      | none =>
        rw [List.getElem?_eq_none_iff] at hc
        omega
    obtain ⟨s, hs⟩ := hsome
    rw [hs] at h1
    rw [hs, h1]
    rfl

/-- Witness of C8: the replay of the example session, three snapshots long. -/
theorem replay_fidelity_witness :
    exPlay2.mvhist.undo.length = 3 ∧
    (undo_chronological exPlay2.mvhist)[1]? = some exPlay1.gs ∧
    gsstack_peek_state (replay_cursor_at exReplay 1) = (undo_chronological exPlay2.mvhist)[1]? ∧
    some (_do_replay_next (replay_cursor_at exReplay 1) exPlay2.gs exReplay []).gs
      = (undo_chronological exPlay2.mvhist)[1 + 1]? ∧
    (undo_chronological exPlay2.mvhist)[1 + 1]? = some exPlay2.gs :=
  have h := replay_fidelity exPlay2.mvhist 750 []
  ⟨by decide, by decide, (h.2.2.2.2.2.1 1 (by decide)).1,
   (h.2.2.2.2.2.2.2.2.2 1 (by decide) exPlay2.gs []).2, by decide⟩

/-- C9: a step toward the bottom of the replay stack (`_do_replay_next`,
`_do_replay_end`, `_do_replay_auto`) from a cursor whose count is 1, and a step
toward its top (`_do_replay_prev`, `_do_replay_beg`) from a cursor whose count
is `replay_nmoves`, only beeps: the cursor and the live game-state are returned
as they were. -/
theorem replay_step_refused (it : GSStack) (gs : GameState) (mvhist : MovesHistory) (tui : Tui)
    (fuel : Nat) :
    (gsstack_peek_count it = 1 →
      _do_replay_next it gs mvhist tui
        = { it := it, gs := gs, tui := tui ++ [TuiCall.sys_beep 1] } ∧
      _do_replay_end it gs mvhist tui
        = { it := it, gs := gs, tui := tui ++ [TuiCall.sys_beep 1] } ∧
      _do_replay_auto fuel it gs mvhist tui
        = some { it := it, gs := gs, tui := tui ++ [TuiCall.sys_beep 1] }) ∧
    (gsstack_peek_count it = mvhist_get_replay_nmoves mvhist →
      _do_replay_prev it gs mvhist tui
        = { it := it, gs := gs, tui := tui ++ [TuiCall.sys_beep 1] } ∧
      _do_replay_beg it gs mvhist tui
        = { it := it, gs := gs, tui := tui ++ [TuiCall.sys_beep 1] }) := by
  constructor
  · intro h
    simp [_do_replay_next, _do_replay_end, _do_replay_auto, h]
  · intro h
    simp [_do_replay_prev, _do_replay_beg, h]

/-- Witness of C9: in the replay of the example session, the cursor on the last
snapshot cannot go further down, the cursor on the first cannot go further up. -/
theorem replay_step_refused_witness :
    gsstack_peek_count (replay_cursor_at exReplay 2) = 1 ∧
    (_do_replay_next (replay_cursor_at exReplay 2) exPlay2.gs exReplay []).it
      = replay_cursor_at exReplay 2 ∧
    (_do_replay_auto 0 (replay_cursor_at exReplay 2) exPlay2.gs exReplay []).map ReplayStep.gs
      = some exPlay2.gs ∧
    gsstack_peek_count (replay_cursor_at exReplay 0) = mvhist_get_replay_nmoves exReplay ∧
    (_do_replay_prev (replay_cursor_at exReplay 0) exGs0 exReplay []).it
      = replay_cursor_at exReplay 0 :=
  have h := replay_step_refused (replay_cursor_at exReplay 2) exPlay2.gs exReplay [] 0
  have g := replay_step_refused (replay_cursor_at exReplay 0) exGs0 exReplay [] 0
  ⟨by decide, congrArg ReplayStep.it (h.1 (by decide)).1,
   congrArg (Option.map ReplayStep.gs) (h.1 (by decide)).2.2,
   by decide, congrArg ReplayStep.it (g.2 (by decide)).1⟩

/-- The autoplay loop, given one unit of fuel per node from the cursor down,
ends with the `NULL` cursor after it has shown every node below the cursor. -/
theorem replay_auto_loop_ends (mvhist : MovesHistory) (delay : Nat) :
    ∀ (fuel : Nat) (it : GSStack) (gs : GameState) (tui : Tui), it.tail.length < fuel →
      _do_replay_auto_loop mvhist delay fuel it gs tui =
        some { it := []
               gs := it.tail.foldl (fun _ n => n.state) gs
               tui := tui ++ replay_auto_frames delay it.tail } := by
  intro fuel
  induction fuel with
  | zero => intro it gs tui h; omega
  | succ fuel ih =>
    intro it gs tui h
    match it, h with
    | [], _ => simp [_do_replay_auto_loop, mvhist_iter_down_replay_stack, replay_auto_frames]
    | [a], _ => simp [_do_replay_auto_loop, mvhist_iter_down_replay_stack, replay_auto_frames]
    | a :: n :: rest, h =>
      have hr : (n :: rest).tail.length < fuel := by
        simp only [List.tail_cons, List.length_cons] at h ⊢
        omega
      simp only [_do_replay_auto_loop, mvhist_iter_down_replay_stack, List.tail_cons]
      rw [ih (n :: rest) _ _ hr]
      simp [replay_auto_frames, gsstack_peek_state, gamestate_copy]

/-- Autoplay makes four calls on the user interface per node it shows. -/
theorem replay_auto_frames_length (delay : Nat) (nodes : GSStack) :
    (replay_auto_frames delay nodes).length = 4 * nodes.length := by
  induction nodes with
  | nil => rfl
  | cons n rest ih =>
    have h : replay_auto_frames delay (n :: rest)
        = [TuiCall.redraw 0 n.state, TuiCall.draw_iobar2_replaynavigation,
           TuiCall.draw_iobar_autoreplayinfo, TuiCall.sys_sleep delay]
          ++ replay_auto_frames delay rest := by
      simp [replay_auto_frames]
    rw [h, List.length_append, ih, List.length_cons]
    simp only [List.length_cons, List.length_nil]
    omega

/-- The bottom node of a stack is the bottom node below any cursor into it. -/
theorem iter_bottom_of_suffix (mvhist : MovesHistory) (it : GSStack) (hne : it ≠ [])
    (h : it <:+ mvhist.replay) :
    mvhist_iter_bottom_replay_stack mvhist = it.drop (it.length - 1) := by
  obtain ⟨pre, hp⟩ := h
  have hl : 1 ≤ it.length := List.length_pos.2 hne
  unfold mvhist_iter_bottom_replay_stack
  rw [← hp, List.length_append, List.drop_append_eq_append_drop]
  have h1 : pre.length + it.length - 1 - pre.length = it.length - 1 := by omega
  have h2 : pre.length ≤ pre.length + it.length - 1 := by omega
  rw [h1, List.drop_eq_nil_of_le h2, List.nil_append]

/-- The state in which a fold that keeps the last node ends is the snapshot of
the bottom node. -/
theorem foldl_last_state (a : GSNode) (rest : GSStack) (gs : GameState) :
    some ((a :: rest).foldl (fun _ n => n.state) gs)
      = gsstack_peek_state ((a :: rest).drop ((a :: rest).length - 1)) := by
  induction rest generalizing a gs with
  | nil => simp [gsstack_peek_state]
  | cons b rest ih =>
    have := ih b a.state
    simpa using this

/-- C10: on a well-formed replay stack, from any (non-`NULL`) cursor into it,
`_do_replay_auto` returns as soon as its loop may test its condition as many
times as the cursor's count.  It ends with the cursor on `iter_bottom`, whose
count is 1.  From a cursor of count 1 it only beeps; otherwise it has made each
node below the cursor, in order, the live game-state and drawn it, in exactly
(cursor count - 1) passes of the loop, and the live game-state is the bottom
snapshot. -/
theorem replay_auto_terminates (it : GSStack) (gs : GameState) (mvhist : MovesHistory)
    (tui : Tui) (fuel : Nat) (hwf : gsstack_wf mvhist.replay = true) (hne : it ≠ [])
    (hcur : it <:+ mvhist.replay) (hfuel : gsstack_peek_count it ≤ fuel) :
    ∃ r, _do_replay_auto fuel it gs mvhist tui = some r ∧
      r.it = mvhist_iter_bottom_replay_stack mvhist ∧
      gsstack_peek_count r.it = 1 ∧
      it.tail.length = gsstack_peek_count it - 1 ∧
      (gsstack_peek_count it = 1 → r.gs = gs ∧ r.tui = tui ++ [TuiCall.sys_beep 1]) ∧
      (gsstack_peek_count it ≠ 1 →
        r.tui = tui ++ replay_auto_frames 750 it.tail ∧
        (replay_auto_frames 750 it.tail).length = 4 * (gsstack_peek_count it - 1) ∧
        some r.gs = gsstack_peek_state (mvhist_iter_bottom_replay_stack mvhist)) := by
  have hwfit := gsstack_wf_suffix it mvhist.replay hcur hwf
  have hcount := gsstack_wf_count it hwfit
  have hbot := iter_bottom_of_suffix mvhist it hne hcur
  have hlen : 1 ≤ it.length := List.length_pos.2 hne
  have htl : it.tail.length = gsstack_peek_count it - 1 := by
    rw [hcount, List.length_tail]
  have hbotcount : gsstack_peek_count (mvhist_iter_bottom_replay_stack mvhist) = 1 := by
    rw [hbot, gsstack_peek_count_drop it _ hwfit]
    omega
  by_cases h1 : gsstack_peek_count it = 1
  · refine ⟨{ it := it, gs := gs, tui := tui ++ [TuiCall.sys_beep 1] }, ?_, ?_, ?_, htl, ?_, ?_⟩
    · simp [_do_replay_auto, h1]
    · rw [hbot]
      have : it.length - 1 = 0 := by omega
      rw [this, List.drop_zero]
    · exact h1
    · intro _
      exact ⟨rfl, rfl⟩
    · intro h
      exact absurd h1 h
  · have hrun := replay_auto_loop_ends mvhist 750 fuel it gs tui (by omega)
    refine ⟨{ it := mvhist_iter_bottom_replay_stack mvhist
              gs := it.tail.foldl (fun _ n => n.state) gs
              tui := tui ++ replay_auto_frames 750 it.tail }, ?_, rfl, hbotcount, htl, ?_, ?_⟩
    · simp [_do_replay_auto, h1, hrun]
    · intro h
      exact absurd h h1
    · intro _
      refine ⟨rfl, ?_, ?_⟩
      · rw [← htl, replay_auto_frames_length]
      · match it, hne, hcount, h1, hbot with
        | [a], _, hc, h1, _ => exact absurd (by simpa using hc) h1
        | a :: b :: rest, _, _, _, hbot =>
          rw [hbot]
          have := foldl_last_state b rest gs
          simpa using this

/-- Witness of C10: autoplay from the second of the three snapshots of the
example replay, with fuel 2. -/
theorem replay_auto_terminates_witness :
    gsstack_wf exReplay.replay = true ∧
    gsstack_peek_count (replay_cursor_at exReplay 1) = 2 ∧
    ∃ r, _do_replay_auto 2 (replay_cursor_at exReplay 1) exPlay1.gs exReplay [] = some r ∧
      r.it = mvhist_iter_bottom_replay_stack exReplay ∧
      (replay_cursor_at exReplay 1).tail.length = 2 - 1 :=
  ⟨by decide, by decide,
   (replay_auto_terminates (replay_cursor_at exReplay 1) exPlay1.gs exReplay [] 2 (by decide)
      (by decide) ⟨exReplay.replay.take 1, by decide⟩ (by decide)).imp
      fun _ h => ⟨h.1, h.2.1, h.2.2.2.1⟩⟩

/-! ## C11: loading a replay -/

/-- C11: when the file the player names does not exist, or
`new_mvhist_from_file` returns `NULL` for it, `_do_replay_load` leaves the
replay cursor, the live game-state and the moves-history (the reference and
with it the undo, redo and replay stacks) exactly as they were, whatever the
player answered to the prompt. -/
theorem replay_load_failure_keeps_state (F : ReplayFiles) (it : GSStack) (gs : GameState)
    (mvhist : MovesHistory) (tui : Tui) (answer : Char) (fname : String)
    (h : F.f_exists fname = false ∨ F.new_mvhist_from_file fname = none) :
    (_do_replay_load F it gs mvhist tui answer fname).it = it ∧
    (_do_replay_load F it gs mvhist tui answer fname).gs = gs ∧
    (_do_replay_load F it gs mvhist tui answer fname).mvhist = mvhist ∧
    (_do_replay_load F it gs mvhist tui answer fname).mvhist.undo = mvhist.undo ∧
    (_do_replay_load F it gs mvhist tui answer fname).mvhist.redo = mvhist.redo ∧
    (_do_replay_load F it gs mvhist tui answer fname).mvhist.replay = mvhist.replay := by
  unfold _do_replay_load
  by_cases hy : (answer.toLower == 'y') = true
  · by_cases he : F.f_exists fname = true
    · have hn : F.new_mvhist_from_file fname = none := by
        rcases h with h | h
        · rw [he] at h
          exact absurd h (by decide)
        · exact h
      simp [hy, he, hn]
    · simp [hy, he]
  · simp [hy]

/-- Witness of C11: in the replay of the example session the player asks for a
file that does not exist, then for one that cannot be read. -/
theorem replay_load_failure_keeps_state_witness :
    exFiles.f_exists "replays/none.sav" = false ∧
    (_do_replay_load exFiles (replay_cursor_at exReplay 1) exPlay1.gs exReplay [] 'y'
        "replays/none.sav").mvhist = exReplay ∧
    exFiles.f_exists "replays/bad.sav" = true ∧
    (_do_replay_load exFiles (replay_cursor_at exReplay 1) exPlay1.gs exReplay [] 'Y'
        "replays/bad.sav").it = replay_cursor_at exReplay 1 ∧
    (_do_replay_load exFiles (replay_cursor_at exReplay 1) exPlay1.gs exReplay [] 'Y'
        "replays/bad.sav").gs = exPlay1.gs :=
  have h := replay_load_failure_keeps_state exFiles (replay_cursor_at exReplay 1) exPlay1.gs
    exReplay [] 'y' "replays/none.sav" (Or.inl (by decide))
  have g := replay_load_failure_keeps_state exFiles (replay_cursor_at exReplay 1) exPlay1.gs
    exReplay [] 'Y' "replays/bad.sav" (Or.inr rfl)
  ⟨by decide, h.2.2.1, by decide, g.1, g.2.1⟩

/-! ## C14 and C16: what a move records -/

/-- A key that is none of the four direction keys plays no move. -/
theorem play_board_move_other_key (K : TuiKeys) (key : Int) (board : Board) (score : Int)
    (hu : key ≠ K.TUI_KEY_UP) (hd : key ≠ K.TUI_KEY_DOWN) (hl : key ≠ K.TUI_KEY_LEFT)
    (hr : key ≠ K.TUI_KEY_RIGHT) :
    _do_play_board_move K key board score
      = { moved := false, board := board, score := score, iswin := false } := by
  simp [_do_play_board_move, hu, hd, hl, hr]

/-- C14: `_do_play_board` records at most one snapshot.  After a winning move
the board is the moved board, without spawned tiles, and the resulting state is
pushed onto `undo`.  After a move that moved without winning the board is the
moved board with the tiles `board_generate_ntiles` spawns for `nrandom`, and the
resulting state, spawned tiles included, is pushed onto `undo`, which grows by
exactly one node.  When nothing moved, as for any key that is not a direction
key, nothing is spawned and `undo` is as before. -/
theorem play_board_records (K : TuiKeys) (key : Int) (gs : GameState) (mvhist : MovesHistory)
    (tui : Tui) (rnd : List Nat) :
    ((_do_play_board K key gs mvhist tui rnd).mvhist.undo = mvhist.undo ∨
     (_do_play_board K key gs mvhist tui rnd).mvhist.undo
       = gsstack_push mvhist.undo (_do_play_board K key gs mvhist tui rnd).gs) ∧
    ((_do_play_board_move K key gs.board gs.score).iswin = true →
      (_do_play_board K key gs mvhist tui rnd).gs.board
        = (_do_play_board_move K key gs.board gs.score).board ∧
      (_do_play_board K key gs mvhist tui rnd).mvhist.undo
        = gsstack_push mvhist.undo (_do_play_board K key gs mvhist tui rnd).gs ∧
      (_do_play_board K key gs mvhist tui rnd).mvhist.undo.length = mvhist.undo.length + 1) ∧
    ((_do_play_board_move K key gs.board gs.score).iswin = false →
     (_do_play_board_move K key gs.board gs.score).moved = true →
      (_do_play_board K key gs mvhist tui rnd).gs.board
        = board_generate_ntiles (_do_play_board_move K key gs.board gs.score).board
            (board_get_nrandom (_do_play_board_move K key gs.board gs.score).board) rnd ∧
      (_do_play_board K key gs mvhist tui rnd).mvhist.undo
        = gsstack_push mvhist.undo (_do_play_board K key gs mvhist tui rnd).gs ∧
      gsstack_peek_state (_do_play_board K key gs mvhist tui rnd).mvhist.undo
        = some (_do_play_board K key gs mvhist tui rnd).gs ∧
      (_do_play_board K key gs mvhist tui rnd).mvhist.undo.length = mvhist.undo.length + 1 ∧
      gsstack_peek_count (_do_play_board K key gs mvhist tui rnd).mvhist.undo
        = gsstack_peek_count mvhist.undo + 1) ∧
    ((_do_play_board_move K key gs.board gs.score).iswin = false →
     (_do_play_board_move K key gs.board gs.score).moved = false →
      (_do_play_board K key gs mvhist tui rnd).gs.board
        = (_do_play_board_move K key gs.board gs.score).board ∧
      (_do_play_board K key gs mvhist tui rnd).mvhist.undo = mvhist.undo) ∧
    (key ≠ K.TUI_KEY_UP → key ≠ K.TUI_KEY_DOWN → key ≠ K.TUI_KEY_LEFT →
     key ≠ K.TUI_KEY_RIGHT →
      (_do_play_board K key gs mvhist tui rnd).gs.board = gs.board ∧
      (_do_play_board K key gs mvhist tui rnd).mvhist.undo = mvhist.undo) := by
  have hb := play_board_board K key gs mvhist tui rnd
  have hm := play_board_mvhist K key gs mvhist tui rnd
  have hwin : (_do_play_board_move K key gs.board gs.score).iswin = true →
      (_do_play_board K key gs mvhist tui rnd).gs.board
        = (_do_play_board_move K key gs.board gs.score).board ∧
      (_do_play_board K key gs mvhist tui rnd).mvhist.undo
        = gsstack_push mvhist.undo (_do_play_board K key gs mvhist tui rnd).gs := by
    intro hw
    rw [if_pos (Or.inl hw)] at hm
    rw [if_neg (fun h => by rw [hw] at h; exact absurd h.1 (by decide))] at hb
    exact ⟨hb, by rw [hm]; rfl⟩
  have hmoved : (_do_play_board_move K key gs.board gs.score).iswin = false →
      (_do_play_board_move K key gs.board gs.score).moved = true →
      (_do_play_board K key gs mvhist tui rnd).gs.board
        = board_generate_ntiles (_do_play_board_move K key gs.board gs.score).board
            (board_get_nrandom (_do_play_board_move K key gs.board gs.score).board) rnd ∧
      (_do_play_board K key gs mvhist tui rnd).mvhist.undo
        = gsstack_push mvhist.undo (_do_play_board K key gs mvhist tui rnd).gs := by
    intro hw hmv
    rw [if_pos (Or.inr hmv)] at hm
    rw [if_pos ⟨hw, hmv⟩] at hb
    exact ⟨hb, by rw [hm]; rfl⟩
  have hstill : (_do_play_board_move K key gs.board gs.score).iswin = false →
      (_do_play_board_move K key gs.board gs.score).moved = false →
      (_do_play_board K key gs mvhist tui rnd).gs.board
        = (_do_play_board_move K key gs.board gs.score).board ∧
      (_do_play_board K key gs mvhist tui rnd).mvhist.undo = mvhist.undo := by
    intro hw hmv
    rw [if_neg (fun h => by
      rcases h with h | h
      · rw [hw] at h; exact absurd h (by decide)
      · rw [hmv] at h; exact absurd h (by decide))] at hm
    rw [if_neg (fun h => by rw [hmv] at h; exact absurd h.2 (by decide))] at hb
    exact ⟨hb, by rw [hm]⟩
  refine ⟨?_, ?_, ?_, hstill, ?_⟩
  · cases hw : (_do_play_board_move K key gs.board gs.score).iswin with
    | true => exact Or.inr (hwin hw).2
    | false =>
      cases hmv : (_do_play_board_move K key gs.board gs.score).moved with
      | true => exact Or.inr (hmoved hw hmv).2
      | false => exact Or.inl (hstill hw hmv).2
  · intro hw
    refine ⟨(hwin hw).1, (hwin hw).2, ?_⟩
    rw [(hwin hw).2]
    simp [gsstack_push]
  · intro hw hmv
    refine ⟨(hmoved hw hmv).1, (hmoved hw hmv).2, ?_, ?_, ?_⟩
    · rw [(hmoved hw hmv).2]
      rfl
    · rw [(hmoved hw hmv).2]
      simp [gsstack_push]
    · rw [(hmoved hw hmv).2]
      rfl
  · intro hu hd hl hr
    have hk := play_board_move_other_key K key gs.board gs.score hu hd hl hr
    have h := hstill (by rw [hk]) (by rw [hk])
    rw [hk] at h
    exact h

/-- Witness of C14: the first move of the example session moves without winning
and records the state with the spawned 4; a winning move records the state
without a spawn; a key that is no direction key records nothing. -/
theorem play_board_records_witness :
    exPlay1.gs.board.cells = [[4, 4], [0, 0]] ∧
    gsstack_peek_state exPlay1.mvhist.undo = some exPlay1.gs ∧
    exPlay1.mvhist.undo.length = exMv0.undo.length + 1 ∧
    (_do_play_board exKeys 3 (exGsOn exBoardWin) (exMvOn (exGsOn exBoardWin)) [] [0, 0]).gs.board.cells
      = [[8, 0], [0, 0]] ∧
    (_do_play_board exKeys 7 exGs0 exMv0 [] [0, 0]).mvhist.undo = exMv0.undo :=
  have h := (play_board_records exKeys 3 exGs0 exMv0 [] [0, 9]).2.2.1 (by decide) (by decide)
  have w := (play_board_records exKeys 3 (exGsOn exBoardWin) (exMvOn (exGsOn exBoardWin)) []
    [0, 0]).2.1 (by decide)
  have o := (play_board_records exKeys 7 exGs0 exMv0 [] [0, 0]).2.2.2.2 (by decide) (by decide)
    (by decide) (by decide)
  ⟨(congrArg Board.cells h.1).trans (by decide), h.2.2.1, h.2.2.2.1,
   (congrArg Board.cells w.1).trans (by decide), o.2⟩

/-- C16: `_do_play_board` leaves the redo stack and `didundo` as they were.  So
when `didundo` is set and `redo` holds a snapshot, a `_do_redo` right after the
move is accepted: the old top of `redo` becomes the live game-state and is
pushed onto `undo`, on top of the snapshot the move recorded if it recorded
one. -/
theorem play_board_keeps_redo (K : TuiKeys) (key : Int) (gs : GameState) (mvhist : MovesHistory)
    (tui : Tui) (rnd : List Nat) :
    (_do_play_board K key gs mvhist tui rnd).mvhist.redo = mvhist.redo ∧
    (_do_play_board K key gs mvhist tui rnd).mvhist.didundo = mvhist.didundo ∧
    (mvhist.didundo = true → ∀ n rest, mvhist.redo = n :: rest →
      (_do_redo (_do_play_board K key gs mvhist tui rnd).gs
          (_do_play_board K key gs mvhist tui rnd).mvhist
          (_do_play_board K key gs mvhist tui rnd).tui).gs = n.state ∧
      (_do_redo (_do_play_board K key gs mvhist tui rnd).gs
          (_do_play_board K key gs mvhist tui rnd).mvhist
          (_do_play_board K key gs mvhist tui rnd).tui).mvhist.redo = rest ∧
      (_do_redo (_do_play_board K key gs mvhist tui rnd).gs
          (_do_play_board K key gs mvhist tui rnd).mvhist
          (_do_play_board K key gs mvhist tui rnd).tui).mvhist.undo
        = gsstack_push (_do_play_board K key gs mvhist tui rnd).mvhist.undo n.state ∧
      (((_do_play_board_move K key gs.board gs.score).iswin = true ∨
        (_do_play_board_move K key gs.board gs.score).moved = true) →
        (_do_redo (_do_play_board K key gs mvhist tui rnd).gs
            (_do_play_board K key gs mvhist tui rnd).mvhist
            (_do_play_board K key gs mvhist tui rnd).tui).mvhist.undo
          = gsstack_push
              (gsstack_push mvhist.undo (_do_play_board K key gs mvhist tui rnd).gs)
              n.state)) := by
  have hm := play_board_mvhist K key gs mvhist tui rnd
  have hredo : (_do_play_board K key gs mvhist tui rnd).mvhist.redo = mvhist.redo := by
    rw [hm]
    split <;> rfl
  have hdid : (_do_play_board K key gs mvhist tui rnd).mvhist.didundo = mvhist.didundo := by
    rw [hm]
    split <;> rfl
  refine ⟨hredo, hdid, ?_⟩
  intro hd n rest hr
  rw [do_redo_proceeds _ _ _ n rest (hdid.trans hd) (hredo.trans hr)]
  refine ⟨rfl, rfl, rfl, ?_⟩
  intro hmv
  rw [if_pos hmv] at hm
  show gsstack_push (_do_play_board K key gs mvhist tui rnd).mvhist.undo n.state = _
  rw [hm]
  rfl

/-- Witness of C16: in the example session a move is played after the first
undo; the undone snapshot is still on `redo` and the redo that follows puts it
on top of the new move. -/
theorem play_board_keeps_redo_witness :
    exUndo1.mvhist.didundo = true ∧
    exUndo1.mvhist.redo = gsstack_push [] exPlay2.gs ∧
    (_do_redo (_do_play_board exKeys 4 exUndo1.gs exUndo1.mvhist exUndo1.tui [0, 0]).gs
        (_do_play_board exKeys 4 exUndo1.gs exUndo1.mvhist exUndo1.tui [0, 0]).mvhist
        (_do_play_board exKeys 4 exUndo1.gs exUndo1.mvhist exUndo1.tui [0, 0]).tui).gs
      = exPlay2.gs :=
  ⟨by decide, by decide,
   ((play_board_keeps_redo exKeys 4 exUndo1.gs exUndo1.mvhist exUndo1.tui [0, 0]).2.2
      (by decide) { state := exPlay2.gs, count := 1 } [] (by decide)).1⟩

/-! ## C12 and C15: invariants of the game loop -/

/-- What `_do_undo` does to the undo stack and the live game-state: nothing, or
the top node is popped and the snapshot below becomes the live game-state. -/
theorem do_undo_shape (gs : GameState) (mvhist : MovesHistory) (tui : Tui) (answer : Char)
    (hu : gsstack_wf mvhist.undo = true) :
    ((_do_undo gs mvhist tui answer).gs = gs ∧
      (_do_undo gs mvhist tui answer).mvhist.undo = mvhist.undo) ∨
    (2 ≤ mvhist.undo.length ∧
      (_do_undo gs mvhist tui answer).mvhist.undo = mvhist.undo.tail ∧
      gsstack_peek_state mvhist.undo.tail = some (_do_undo gs mvhist tui answer).gs) := by
  by_cases h2 : 2 ≤ mvhist.undo.length
  · by_cases hok : mvhist.didundo = true ∨ answer.toLower = 'y'
    · right
      rw [do_undo_proceeds gs mvhist tui answer hu h2 hok]
      refine ⟨h2, rfl, ?_⟩
      cases hl : mvhist.undo with
      | nil => simp [hl] at h2
      | cons a rest =>
        cases rest with
        | nil => simp [hl] at h2
        | cons b rest => simp [gsstack_peek_state]
    · left
      rw [not_or] at hok
      have hg := do_undo_guard_false mvhist hu h2
      have hd : mvhist.didundo = false := by simpa using hok.1
      have hask : (mvhist_get_didundo mvhist == false && answer.toLower != 'y') = true := by
        simp [mvhist_get_didundo, hd, hok.2]
      simp only [_do_undo, hg, hask, Bool.false_eq_true, if_false, if_true]
      exact ⟨trivial, trivial⟩
  · left
    rw [do_undo_refused_eq gs mvhist tui answer hu (by omega)]
    exact ⟨rfl, rfl⟩

/-- What `_do_redo` does to the undo stack and the live game-state: nothing, or
the new live game-state is pushed. -/
theorem do_redo_shape (gs : GameState) (mvhist : MovesHistory) (tui : Tui) :
    ((_do_redo gs mvhist tui).gs = gs ∧ (_do_redo gs mvhist tui).mvhist.undo = mvhist.undo) ∨
    (_do_redo gs mvhist tui).mvhist.undo
      = gsstack_push mvhist.undo (_do_redo gs mvhist tui).gs := by
  by_cases h : mvhist.didundo = false ∨ mvhist.redo = []
  · left
    rw [do_redo_refused gs mvhist tui h]
    exact ⟨rfl, rfl⟩
  · right
    rw [not_or] at h
    cases hrd : mvhist.redo with
    | nil => exact absurd hrd h.2
    | cons n rest =>
      rw [do_redo_proceeds gs mvhist tui n rest (by simpa using h.1) hrd]

/-- What `_do_reset_game` does to the undo stack and the live game-state:
nothing, or the new live game-state is the only snapshot. -/
theorem do_reset_game_shape (gs : GameState) (mvhist : MovesHistory) (tui : Tui)
    (answer : Char) (rnd : List Nat) :
    ((_do_reset_game gs mvhist tui answer rnd).gs = gs ∧
      (_do_reset_game gs mvhist tui answer rnd).mvhist.undo = mvhist.undo) ∨
    (_do_reset_game gs mvhist tui answer rnd).mvhist.undo
      = gsstack_push [] (_do_reset_game gs mvhist tui answer rnd).gs := by
  unfold _do_reset_game
  by_cases hy : (answer.toLower == 'y') = true
  · right
    simp [hy, mvhist_reset, mvhist_push_undo_stack]
  · left
    simp [hy]

/-- What `_do_new_variant` does to the undo stack and the live game-state:
nothing, or the new live game-state is the only snapshot. -/
theorem do_new_variant_shape (B : TuiBoardKeys) (V : BoardVariants) (key : Int)
    (gs : GameState) (mvhist : MovesHistory) (tui : Tui) (answer : Char) (rnd : List Nat) :
    ((_do_new_variant B V key gs mvhist tui answer rnd).gs = gs ∧
      (_do_new_variant B V key gs mvhist tui answer rnd).mvhist.undo = mvhist.undo) ∨
    (_do_new_variant B V key gs mvhist tui answer rnd).mvhist.undo
      = gsstack_push [] (_do_new_variant B V key gs mvhist tui answer rnd).gs := by
  unfold _do_new_variant
  by_cases hv : VALID_VARIANT_KEY B key = true
  · by_cases hd : key - 48 = (board_get_dim (gamestate_get_board gs) : Int)
    · left
      simp [hv, hd]
    · by_cases hy : (answer.toLower == 'y') = true
      · right
        simp [hv, hd, hy, mvhist_reset, mvhist_push_undo_stack]
      · left
        simp [hv, hd, hy]
  · left
    simp [hv]

/-- What `_do_play_board` does to the undo stack: the new live game-state is
pushed, or the move neither won nor moved and nothing is pushed. -/
theorem play_board_shape (K : TuiKeys) (key : Int) (gs : GameState) (mvhist : MovesHistory)
    (tui : Tui) (rnd : List Nat) :
    ((_do_play_board_move K key gs.board gs.score).iswin = false ∧
      (_do_play_board_move K key gs.board gs.score).moved = false ∧
      (_do_play_board K key gs mvhist tui rnd).gs.board
        = (_do_play_board_move K key gs.board gs.score).board ∧
      (_do_play_board K key gs mvhist tui rnd).gs.score
        = (_do_play_board_move K key gs.board gs.score).score ∧
      (_do_play_board K key gs mvhist tui rnd).mvhist.undo = mvhist.undo) ∨
    (_do_play_board K key gs mvhist tui rnd).mvhist.undo
      = gsstack_push mvhist.undo (_do_play_board K key gs mvhist tui rnd).gs := by
  have hb := play_board_board K key gs mvhist tui rnd
  have hm := play_board_mvhist K key gs mvhist tui rnd
  have hs := (play_board_scores K key gs mvhist tui rnd).1
  by_cases h : (_do_play_board_move K key gs.board gs.score).iswin = true ∨
      (_do_play_board_move K key gs.board gs.score).moved = true
  · right
    rw [if_pos h] at hm
    rw [hm]
    rfl
  · left
    rw [if_neg h] at hm
    rw [not_or] at h
    have hw : (_do_play_board_move K key gs.board gs.score).iswin = false := by simpa using h.1
    have hmv : (_do_play_board_move K key gs.board gs.score).moved = false := by simpa using h.2
    rw [if_neg (fun x => by rw [hmv] at x; exact absurd x.2 (by decide))] at hb
    exact ⟨hw, hmv, hb, hs, by rw [hm]⟩

/-- A push leaves a well-formed stack whose top is the pushed state. -/
theorem gsstack_push_top (u : GSStack) (gs : GameState) (h : gsstack_wf u = true) :
    gsstack_wf (gsstack_push u gs) = true ∧ 1 ≤ (gsstack_push u gs).length ∧
    gsstack_peek_state (gsstack_push u gs) = some gs :=
  ⟨gsstack_wf_push u gs h, by simp [gsstack_push], rfl⟩

/-- One operation of the game loop keeps the undo stack well-formed and
non-empty. -/
theorem driver_step_undo_nonempty (K : TuiKeys) (B : TuiBoardKeys) (V : BoardVariants)
    (s : Session) (op : DriverOp)
    (h : gsstack_wf s.mvhist.undo = true ∧ 1 ≤ s.mvhist.undo.length) :
    gsstack_wf (driver_step K B V s op).mvhist.undo = true ∧
    1 ≤ (driver_step K B V s op).mvhist.undo.length := by
  have hnil : gsstack_wf ([] : GSStack) = true := rfl
  cases op with
  | play key rnd =>
    rcases play_board_shape K key s.gs s.mvhist s.tui rnd with hp | hp
    · simp only [driver_step, hp.2.2.2.2]
      exact h
    · simp only [driver_step, hp]
      exact ⟨(gsstack_push_top _ _ h.1).1, (gsstack_push_top _ _ h.1).2.1⟩
  | undo answer =>
    rcases do_undo_shape s.gs s.mvhist s.tui answer h.1 with hp | hp
    · simp only [driver_step, hp.2]
      exact h
    · simp only [driver_step, hp.2.1]
      refine ⟨gsstack_wf_tail _ h.1, ?_⟩
      rw [List.length_tail]
      omega
  | redo =>
    rcases do_redo_shape s.gs s.mvhist s.tui with hp | hp
    · simp only [driver_step, hp.2]
      exact h
    · simp only [driver_step, hp]
      exact ⟨(gsstack_push_top _ _ h.1).1, (gsstack_push_top _ _ h.1).2.1⟩
  | reset_game answer rnd =>
    rcases do_reset_game_shape s.gs s.mvhist s.tui answer rnd with hp | hp
    · simp only [driver_step, hp.2]
      exact h
    · simp only [driver_step, hp]
      exact ⟨(gsstack_push_top _ _ hnil).1, (gsstack_push_top _ _ hnil).2.1⟩
  | new_variant key answer rnd =>
    rcases do_new_variant_shape B V key s.gs s.mvhist s.tui answer rnd with hp | hp
    · simp only [driver_step, hp.2]
      exact h
    · simp only [driver_step, hp]
      exact ⟨(gsstack_push_top _ _ hnil).1, (gsstack_push_top _ _ hnil).2.1⟩

/-- The undo stack that `main` starts the game loop with. -/
theorem main_init_undo (gs : GameState) (mvhist : MovesHistory) (tui : Tui) (rnd : List Nat) :
    (main_init gs mvhist tui rnd).mvhist.undo = gsstack_push [] (main_init gs mvhist tui rnd).gs := by
  simp [main_init, mvhist_reset, mvhist_push_undo_stack]

/-- C12: after the initialization made by `main`, every sequence of moves,
undos, redos, new-game requests and variant switches (confirmed or not) leaves
at least one snapshot on the undo stack: the stack has a node, its stored count
is at least 1, and it is well-formed. -/
theorem undo_never_empty (K : TuiKeys) (B : TuiBoardKeys) (V : BoardVariants) (gs : GameState)
    (mvhist : MovesHistory) (tui : Tui) (rnd : List Nat) (ops : List DriverOp) :
    1 ≤ (driver_run K B V (main_init gs mvhist tui rnd) ops).mvhist.undo.length ∧
    1 ≤ mvhist_peek_undo_stack_count (driver_run K B V (main_init gs mvhist tui rnd) ops).mvhist ∧
    mvhist_isempty_undo_stack (driver_run K B V (main_init gs mvhist tui rnd) ops).mvhist
      = false ∧
    gsstack_wf (driver_run K B V (main_init gs mvhist tui rnd) ops).mvhist.undo = true := by
  have hrun : ∀ (ops : List DriverOp) (s : Session),
      gsstack_wf s.mvhist.undo = true ∧ 1 ≤ s.mvhist.undo.length →
      gsstack_wf (driver_run K B V s ops).mvhist.undo = true ∧
      1 ≤ (driver_run K B V s ops).mvhist.undo.length := by
    intro ops
    induction ops with
    | nil => intro s h; exact h
    | cons op ops ih =>
      intro s h
      exact ih (driver_step K B V s op) (driver_step_undo_nonempty K B V s op h)
  have hinit : gsstack_wf (main_init gs mvhist tui rnd).mvhist.undo = true ∧
      1 ≤ (main_init gs mvhist tui rnd).mvhist.undo.length := by
    have hnil : gsstack_wf ([] : GSStack) = true := rfl
    rw [main_init_undo]
    exact ⟨(gsstack_push_top _ _ hnil).1, (gsstack_push_top _ _ hnil).2.1⟩
  have h := hrun ops _ hinit
  refine ⟨h.2, ?_, ?_, h.1⟩
  · rw [mvhist_peek_undo_stack_count, gsstack_wf_count _ h.1]
    exact h.2
  · rw [mvhist_isempty_undo_stack, List.isEmpty_eq_false]
    intro hnil
    rw [hnil] at h
    simp at h

/-- One operation of the game loop keeps the undo stack well-formed with a top
snapshot that has the board and the score of the live game-state, when the
board move it makes, if any, is as assumed. -/
theorem driver_step_undo_top (K : TuiKeys) (B : TuiBoardKeys) (V : BoardVariants)
    (s : Session) (op : DriverOp) (hok : move_still_ok K s op = true)
    (h : gsstack_wf s.mvhist.undo = true ∧ undo_top_matches s) :
    gsstack_wf (driver_step K B V s op).mvhist.undo = true ∧
    undo_top_matches (driver_step K B V s op) := by
  have hnil : gsstack_wf ([] : GSStack) = true := rfl
  have hpush : ∀ (r : Session) (u : GSStack), gsstack_wf u = true →
      r.mvhist.undo = gsstack_push u r.gs →
      gsstack_wf r.mvhist.undo = true ∧ undo_top_matches r := by
    intro r u hu hr
    refine ⟨by rw [hr]; exact gsstack_wf_push u r.gs hu, r.gs, ?_, rfl, rfl⟩
    rw [hr]
    rfl
  have hsame : ∀ (r : Session), r.gs = s.gs → r.mvhist.undo = s.mvhist.undo →
      gsstack_wf r.mvhist.undo = true ∧ undo_top_matches r := by
    intro r hg hu
    obtain ⟨top, ht, hb, hs⟩ := h.2
    exact ⟨by rw [hu]; exact h.1, top, by rw [hu]; exact ht, by rw [hg]; exact hb,
      by rw [hg]; exact hs⟩
  cases op with
  | play key rnd =>
    rcases play_board_shape K key s.gs s.mvhist s.tui rnd with hp | hp
    · obtain ⟨hw, hmv, hb, hsc, hu⟩ := hp
      simp only [move_still_ok, hw, hmv, Bool.or_self, Bool.false_or, Bool.and_eq_true,
        decide_eq_true_eq] at hok
      obtain ⟨top, ht, htb, hts⟩ := h.2
      refine ⟨by simp only [driver_step, hu]; exact h.1, top, ?_, ?_, ?_⟩
      · simp only [driver_step, hu]
        exact ht
      · simp only [driver_step, hb, hok.1]
        exact htb
      · simp only [driver_step, hsc, hok.2]
        exact hts
    · exact hpush (driver_step K B V s (DriverOp.play key rnd)) s.mvhist.undo h.1 hp
  | undo answer =>
    rcases do_undo_shape s.gs s.mvhist s.tui answer h.1 with hp | hp
    · exact hsame _ hp.1 hp.2
    · refine ⟨by simp only [driver_step, hp.2.1]; exact gsstack_wf_tail _ h.1,
        (_do_undo s.gs s.mvhist s.tui answer).gs, ?_, rfl, rfl⟩
      simp only [driver_step, hp.2.1]
      exact hp.2.2
  | redo =>
    rcases do_redo_shape s.gs s.mvhist s.tui with hp | hp
    · exact hsame _ hp.1 hp.2
    · exact hpush (driver_step K B V s DriverOp.redo) s.mvhist.undo h.1 hp
  | reset_game answer rnd =>
    rcases do_reset_game_shape s.gs s.mvhist s.tui answer rnd with hp | hp
    · exact hsame _ hp.1 hp.2
    · exact hpush (driver_step K B V s (DriverOp.reset_game answer rnd)) [] hnil hp
  | new_variant key answer rnd =>
    rcases do_new_variant_shape B V key s.gs s.mvhist s.tui answer rnd with hp | hp
    · exact hsame _ hp.1 hp.2
    · exact hpush (driver_step K B V s (DriverOp.new_variant key answer rnd)) [] hnil hp

/-- C15: after the initialization made by `main` and after every sequence of
moves, undos, redos, new-game requests and variant switches, the top snapshot
of the undo stack has the board and the score of the live game-state, provided
that every board move of the sequence that reported `moved = false` and
`iswin = false` left the board and the score unchanged. -/
theorem undo_top_is_live (K : TuiKeys) (B : TuiBoardKeys) (V : BoardVariants) (gs : GameState)
    (mvhist : MovesHistory) (tui : Tui) (rnd : List Nat) (ops : List DriverOp)
    (hok : moves_still_ok K B V (main_init gs mvhist tui rnd) ops = true) :
    undo_top_matches (main_init gs mvhist tui rnd) ∧
    undo_top_matches (driver_run K B V (main_init gs mvhist tui rnd) ops) ∧
    ∃ top, gsstack_peek_state (driver_run K B V (main_init gs mvhist tui rnd) ops).mvhist.undo
        = some top ∧
      top.board = (driver_run K B V (main_init gs mvhist tui rnd) ops).gs.board ∧
      top.score = (driver_run K B V (main_init gs mvhist tui rnd) ops).gs.score := by
  have hrun : ∀ (ops : List DriverOp) (s : Session), moves_still_ok K B V s ops = true →
      gsstack_wf s.mvhist.undo = true ∧ undo_top_matches s →
      gsstack_wf (driver_run K B V s ops).mvhist.undo = true ∧
      undo_top_matches (driver_run K B V s ops) := by
    intro ops
    induction ops with
    | nil => intro s _ h; exact h
    | cons op ops ih =>
      intro s hok h
      simp only [moves_still_ok, Bool.and_eq_true] at hok
      exact ih (driver_step K B V s op) hok.2 (driver_step_undo_top K B V s op hok.1 h)
  have hinit : gsstack_wf (main_init gs mvhist tui rnd).mvhist.undo = true ∧
      undo_top_matches (main_init gs mvhist tui rnd) := by
    have hnil : gsstack_wf ([] : GSStack) = true := rfl
    have hu := main_init_undo gs mvhist tui rnd
    refine ⟨by rw [hu]; exact gsstack_wf_push _ _ hnil, (main_init gs mvhist tui rnd).gs, ?_,
      rfl, rfl⟩
    rw [hu]
    rfl
  have h := hrun ops _ hok hinit
  exact ⟨hinit.2, h.2, h.2⟩

/-- Witness of C15: the example run, which holds a key that moves nothing, an
undo, a redo, a variant switch and a new game. -/
theorem undo_top_is_live_witness :
    moves_still_ok exKeys exBoardKeys exVariants (main_init exGs0 exMv0 [] [0, 0, 0, 0]) exOps
      = true ∧
    undo_top_matches
      (driver_run exKeys exBoardKeys exVariants (main_init exGs0 exMv0 [] [0, 0, 0, 0]) exOps) ∧
    undo_top_matches
      (driver_run exKeys exBoardKeys exVariants (main_init exGs0 exMv0 [] [0, 0, 0, 0])
        (exOps.take 2)) :=
  ⟨by decide,
   (undo_top_is_live exKeys exBoardKeys exVariants exGs0 exMv0 [] [0, 0, 0, 0] exOps
      (by decide)).2.1,
   (undo_top_is_live exKeys exBoardKeys exVariants exGs0 exMv0 [] [0, 0, 0, 0] (exOps.take 2)
      (by decide)).2.1⟩

/-! ## C13: merge conservation -/

theorem line_compact_sum (l : List Nat) : (line_compact l).sum = l.sum := by
  unfold line_compact
  induction l with
  | nil => rfl
  | cons a rest ih =>
    rw [List.sum_append] at ih ⊢
    by_cases ha : a = 0
    · simp only [List.filter_cons, ha, bne_self_eq_false, beq_self_eq_true, Bool.false_eq_true,
        if_false, if_true, List.sum_cons]
      omega
    · have h1 : (a != 0) = true := by simpa using ha
      have h2 : (a == 0) = false := by simpa using ha
      simp only [List.filter_cons, h1, h2, Bool.false_eq_true, if_false, if_true, List.sum_cons]
      omega

theorem line_compact_length (l : List Nat) : (line_compact l).length = l.length := by
  unfold line_compact
  induction l with
  | nil => rfl
  | cons a rest ih =>
    rw [List.length_append] at ih ⊢
    by_cases ha : a = 0
    · simp only [List.filter_cons, ha, bne_self_eq_false, beq_self_eq_true, Bool.false_eq_true,
        if_false, if_true, List.length_cons]
      omega
    · have h1 : (a != 0) = true := by simpa using ha
      have h2 : (a == 0) = false := by simpa using ha
      simp only [List.filter_cons, h1, h2, Bool.false_eq_true, if_false, if_true,
        List.length_cons]
      omega

/-- The merge scan keeps the sum and the length of a line, and the score it
gains is the sum of the merged values. -/
theorem line_merge_facts (sentinel : Nat) : ∀ (l : List Nat),
    (line_merge sentinel l).1.sum = l.sum ∧
    (line_merge sentinel l).1.length = l.length ∧
    (line_merge sentinel l).2.1 = (((line_merged_values l).sum : Nat) : Int)
  | [] => by simp [line_merge, line_merged_values]
  | [a] => by simp [line_merge, line_merged_values]
  | a :: b :: rest => by
    have ih1 := line_merge_facts sentinel rest
    have ih2 := line_merge_facts sentinel (b :: rest)
    by_cases h : (a != 0 && a == b) = true
    · simp only [line_merge, line_merged_values, h, if_true, List.sum_cons, List.length_cons,
        ih1.1, ih1.2.1, ih1.2.2, zero_add, Nat.cast_add]
      refine ⟨by omega, trivial, trivial⟩
    · simp only [line_merge, line_merged_values, h, if_false, List.sum_cons, List.length_cons,
        ih2.1, ih2.2.1, ih2.2.2, Bool.false_eq_true]
      simp

/-- The line transform keeps the sum and the length of a line, and the score it
gains is the sum of the merged values. -/
theorem line_move_facts (sentinel : Nat) (l : List Nat) :
    (line_move sentinel l).1.sum = l.sum ∧
    (line_move sentinel l).1.length = l.length ∧
    (line_move sentinel l).2.1 = (((line_merged_values (line_compact l)).sum : Nat) : Int) := by
  have h := line_merge_facts sentinel (line_compact l)
  simp only [line_move]
  exact ⟨by rw [line_compact_sum, h.1, line_compact_sum],
    by rw [line_compact_length, h.2.1, line_compact_length], h.2.2⟩

theorem getD_map_range {α : Type} (f : Nat → α) (n i : Nat) (d : α) (h : i < n) :
    ((List.range n).map f).getD i d = f i := by
  rw [List.getD_eq_getElem?_getD, List.getElem?_map, List.getElem?_range h]
  rfl

theorem sum_getD_range (l : List Nat) :
    ((List.range l.length).map fun j => l.getD j 0).sum = l.sum := by
  have h : ((List.range l.length).map fun j => l.getD j 0) = l := by
    apply List.ext_getElem
    · simp
    · intro j h1 h2
      simp only [List.getElem_map, List.getElem_range]
      exact List.getD_eq_getElem l 0 h2
  rw [h]

theorem sum_map_range_finset (f : Nat → Nat) (n : Nat) :
    ((List.range n).map f).sum = ∑ i in Finset.range n, f i := by
  induction n with
  | zero => rfl
  | succ n ih => rw [List.range_succ, List.map_append, List.sum_append, ih,
      Finset.sum_range_succ]; simp

theorem sum_map_range_swap (f : Nat → Nat → Nat) (n m : Nat) :
    ((List.range n).map fun i => ((List.range m).map fun j => f i j).sum).sum
      = ((List.range m).map fun j => ((List.range n).map fun i => f i j).sum).sum := by
  simp only [sum_map_range_finset]
  exact Finset.sum_comm

theorem sum_flatMap_eq (l : List (List Nat)) (g : List Nat → List Nat) :
    (l.flatMap g).sum = (l.map fun x => (g x).sum).sum := by
  induction l with
  | nil => rfl
  | cons a rest ih => simp [List.flatMap_cons, ih]

/-- The tiles of a board rebuilt from rows. -/
theorem board_of_rows_tile (b : Board) (rows : List (List Nat)) (i j : Nat) (hi : i < b.dim)
    (hj : j < b.dim) :
    board_get_tile (board_of_rows b rows) i j = (rows.getD i []).getD j 0 := by
  simp only [board_get_tile, board_of_rows]
  rw [getD_map_range _ _ _ _ hi, getD_map_range _ _ _ _ hj]

/-- The tiles of a board rebuilt from columns. -/
theorem board_of_cols_tile (b : Board) (cols : List (List Nat)) (i j : Nat) (hi : i < b.dim)
    (hj : j < b.dim) :
    board_get_tile (board_of_cols b cols) i j = (cols.getD j []).getD i 0 := by
  simp only [board_get_tile, board_of_cols]
  rw [getD_map_range _ _ _ _ hi, getD_map_range _ _ _ _ hj]

/-- The tile sum of a board rebuilt from rows of the right length. -/
theorem board_sum_of_rows (b : Board) (T : Nat → List Nat)
    (hlen : ∀ i, i < b.dim → (T i).length = b.dim) :
    board_sum (board_of_rows b ((List.range b.dim).map T))
      = ((List.range b.dim).map fun i => (T i).sum).sum := by
  unfold board_sum
  have hd : (board_of_rows b ((List.range b.dim).map T)).dim = b.dim := rfl
  rw [hd]
  congr 1
  apply List.map_congr_left
  intro i hi
  rw [List.mem_range] at hi
  rw [← sum_getD_range (T i), hlen i hi]
  congr 1
  apply List.map_congr_left
  intro j hj
  rw [List.mem_range] at hj
  rw [board_of_rows_tile b _ i j hi hj, getD_map_range _ _ _ _ hi]

/-- The tile sum of a board rebuilt from columns of the right length. -/
theorem board_sum_of_cols (b : Board) (T : Nat → List Nat)
    (hlen : ∀ j, j < b.dim → (T j).length = b.dim) :
    board_sum (board_of_cols b ((List.range b.dim).map T))
      = ((List.range b.dim).map fun j => (T j).sum).sum := by
  unfold board_sum
  have hd : (board_of_cols b ((List.range b.dim).map T)).dim = b.dim := rfl
  rw [hd, sum_map_range_swap]
  congr 1
  apply List.map_congr_left
  intro j hj
  rw [List.mem_range] at hj
  rw [← sum_getD_range (T j), hlen j hj]
  congr 1
  apply List.map_congr_left
  intro i hi
  rw [List.mem_range] at hi
  rw [board_of_cols_tile b _ i j hi hj, getD_map_range _ _ _ _ hj]

/-- The tile sum of a board, row by row and column by column. -/
theorem board_sum_rows_cols (b : Board) :
    board_sum b = ((List.range b.dim).map fun i => (board_row b i).sum).sum ∧
    board_sum b = ((List.range b.dim).map fun j => (board_col b j).sum).sum := by
  refine ⟨rfl, ?_⟩
  unfold board_sum
  rw [sum_map_range_swap]
  rfl

theorem int_sum_map_cast (f : Nat → Nat) (l : List Nat) :
    (l.map fun i => ((f i : Nat) : Int)).sum = (((l.map f).sum : Nat) : Int) := by
  induction l with
  | nil => rfl
  | cons a rest ih => simp only [List.map_cons, List.sum_cons, ih, Nat.cast_add]

/-- The score a move gains, when each of its lines gains the sum of its merged
values. -/
theorem move_result_score (b : Board) (score : Int) (T : Nat → List Nat × Int × Bool)
    (L : Nat → List Nat) (rebuild : Board → List (List Nat) → Board)
    (hT : ∀ i, i < b.dim →
      (T i).2.1 = (((line_merged_values (line_compact (L i))).sum : Nat) : Int)) :
    (move_result b score ((List.range b.dim).map T) rebuild).score
      = score + (((move_merged_values ((List.range b.dim).map L)).sum : Nat) : Int) := by
  simp only [move_result, move_merged_values, List.map_map]
  congr 1
  rw [sum_flatMap_eq, List.map_map, ← int_sum_map_cast]
  congr 1
  apply List.map_congr_left
  intro i hi
  rw [List.mem_range] at hi
  exact hT i hi

/-- A move along the rows keeps the tile sum, when each transformed row keeps the
sum of its row and the length of the grid. -/
theorem move_result_rows_sum (b : Board) (score : Int) (T : Nat → List Nat × Int × Bool)
    (hT : ∀ i, i < b.dim → (T i).1.sum = (board_row b i).sum ∧ (T i).1.length = b.dim) :
    board_sum (move_result b score ((List.range b.dim).map T) board_of_rows).board
      = board_sum b := by
  have hb : (move_result b score ((List.range b.dim).map T) board_of_rows).board
      = board_of_rows b ((List.range b.dim).map fun i => (T i).1) := by
    simp only [move_result, List.map_map]
    rfl
  rw [hb, board_sum_of_rows b (fun i => (T i).1) (fun i hi => (hT i hi).2),
    (board_sum_rows_cols b).1]
  congr 1
  apply List.map_congr_left
  intro i hi
  rw [List.mem_range] at hi
  exact (hT i hi).1

/-- A move along the columns keeps the tile sum, when each transformed column
keeps the sum of its column and the length of the grid. -/
theorem move_result_cols_sum (b : Board) (score : Int) (T : Nat → List Nat × Int × Bool)
    (hT : ∀ j, j < b.dim → (T j).1.sum = (board_col b j).sum ∧ (T j).1.length = b.dim) :
    board_sum (move_result b score ((List.range b.dim).map T) board_of_cols).board
      = board_sum b := by
  have hb : (move_result b score ((List.range b.dim).map T) board_of_cols).board
      = board_of_cols b ((List.range b.dim).map fun j => (T j).1) := by
    simp only [move_result, List.map_map]
    rfl
  rw [hb, board_sum_of_cols b (fun j => (T j).1) (fun j hj => (hT j hj).2),
    (board_sum_rows_cols b).2]
  congr 1
  apply List.map_congr_left
  intro j hj
  rw [List.mem_range] at hj
  exact (hT j hj).1

theorem board_row_length (b : Board) (i : Nat) : (board_row b i).length = b.dim := by
  simp [board_row]

theorem board_col_length (b : Board) (j : Nat) : (board_col b j).length = b.dim := by
  simp [board_col]

/-- The four board moves keep the tile sum and gain the sum of their merged
values. -/
theorem board_move_facts (b : Board) (score : Int) :
    (board_sum (board_move_left b score).board = board_sum b ∧
      (board_move_left b score).score = score +
        (((move_merged_values ((List.range b.dim).map fun i => board_row b i)).sum : Nat) : Int)) ∧
    (board_sum (board_move_right b score).board = board_sum b ∧
      (board_move_right b score).score = score +
        (((move_merged_values
            ((List.range b.dim).map fun i => (board_row b i).reverse)).sum : Nat) : Int)) ∧
    (board_sum (board_move_up b score).board = board_sum b ∧
      (board_move_up b score).score = score +
        (((move_merged_values ((List.range b.dim).map fun j => board_col b j)).sum : Nat) : Int)) ∧
    (board_sum (board_move_down b score).board = board_sum b ∧
      (board_move_down b score).score = score +
        (((move_merged_values
            ((List.range b.dim).map fun j => (board_col b j).reverse)).sum : Nat) : Int)) := by
  refine ⟨⟨?_, ?_⟩, ⟨?_, ?_⟩, ⟨?_, ?_⟩, ⟨?_, ?_⟩⟩
  · apply move_result_rows_sum
    intro i _
    have h := line_move_facts b.sentinel (board_row b i)
    exact ⟨h.1, by rw [h.2.1, board_row_length]⟩
  · apply move_result_score
    intro i _
    exact (line_move_facts b.sentinel (board_row b i)).2.2
  · apply move_result_rows_sum
    intro i _
    have h := line_move_facts b.sentinel (board_row b i).reverse
    exact ⟨by simp only [List.sum_reverse, h.1],
      by simp only [List.length_reverse, h.2.1, board_row_length]⟩
  · apply move_result_score b score _ (fun i => (board_row b i).reverse)
    intro i _
    exact (line_move_facts b.sentinel (board_row b i).reverse).2.2
  · apply move_result_cols_sum
    intro j _
    have h := line_move_facts b.sentinel (board_col b j)
    exact ⟨h.1, by rw [h.2.1, board_col_length]⟩
  · apply move_result_score
    intro j _
    exact (line_move_facts b.sentinel (board_col b j)).2.2
  · apply move_result_cols_sum
    intro j _
    have h := line_move_facts b.sentinel (board_col b j).reverse
    exact ⟨by simp only [List.sum_reverse, h.1],
      by simp only [List.length_reverse, h.2.1, board_col_length]⟩
  · apply move_result_score b score _ (fun j => (board_col b j).reverse)
    intro j _
    exact (line_move_facts b.sentinel (board_col b j).reverse).2.2

/-- A merged value is the double of a non-zero tile of the line. -/
theorem line_merged_values_doubled : ∀ (l : List Nat) (v : Nat), v ∈ line_merged_values l →
    ∃ a, a ∈ l ∧ a ≠ 0 ∧ v = 2 * a
  | [], v, h => by simp [line_merged_values] at h
  | [_], v, h => by simp [line_merged_values] at h
  | a :: b :: rest, v, h => by
    by_cases hc : (a != 0 && a == b) = true
    · simp only [line_merged_values, hc, if_true, List.mem_cons] at h
      simp only [Bool.and_eq_true, bne_iff_ne, ne_eq, beq_iff_eq] at hc
      rcases h with h | h
      · exact ⟨a, List.mem_cons_self _ _, hc.1, by omega⟩
      · obtain ⟨x, hx, h0, hv⟩ := line_merged_values_doubled rest v h
        exact ⟨x, List.mem_cons_of_mem _ (List.mem_cons_of_mem _ hx), h0, hv⟩
    · simp only [line_merged_values, hc, Bool.false_eq_true, if_false] at h
      obtain ⟨x, hx, h0, hv⟩ := line_merged_values_doubled (b :: rest) v h
      exact ⟨x, List.mem_cons_of_mem _ hx, h0, hv⟩

/-- Counterexample to C13: LEFT on the 2 × 2 board with the row 2 2 merges the
two tiles into a 4: the tiles sum to 4 before and after the move, while the
score grows by 4, so the sum after the move is not the sum before it plus the
score increase. -/
theorem merge_keeps_tile_sum_not_plus_score :
    board_sum exBoard = 4 ∧
    (board_move_left exBoard 0).board.cells = [[4, 0], [0, 0]] ∧
    board_sum (board_move_left exBoard 0).board = 4 ∧
    (board_move_left exBoard 0).score - 0 = 4 ∧
    (_do_play_board_move exKeys 3 exBoard 0) = board_move_left exBoard 0 ∧
    ((board_sum (board_move_left exBoard 0).board : Nat) : Int)
      ≠ ((board_sum exBoard : Nat) : Int) + ((board_move_left exBoard 0).score - 0) := by
  decide

/-- C13, amended: for every board and every direction the sum of all tile values
after the move equals the sum before it, and the score grows by exactly the sum
of the merged values of the move, each of which is the double of a non-zero
tile of its line; the same holds for the move `_do_play_board` makes for any
key, whose score never decreases. -/
theorem move_conserves_tile_sum (K : TuiKeys) (key : Int) (b : Board) (score : Int) :
    (board_sum (board_move_left b score).board = board_sum b ∧
      (board_move_left b score).score = score +
        (((move_merged_values ((List.range b.dim).map fun i => board_row b i)).sum : Nat) : Int)) ∧
    (board_sum (board_move_right b score).board = board_sum b ∧
      (board_move_right b score).score = score +
        (((move_merged_values
            ((List.range b.dim).map fun i => (board_row b i).reverse)).sum : Nat) : Int)) ∧
    (board_sum (board_move_up b score).board = board_sum b ∧
      (board_move_up b score).score = score +
        (((move_merged_values ((List.range b.dim).map fun j => board_col b j)).sum : Nat) : Int)) ∧
    (board_sum (board_move_down b score).board = board_sum b ∧
      (board_move_down b score).score = score +
        (((move_merged_values
            ((List.range b.dim).map fun j => (board_col b j).reverse)).sum : Nat) : Int)) ∧
    (∀ (l : List Nat) (v : Nat), v ∈ line_merged_values (line_compact l) →
      ∃ a, a ∈ l ∧ a ≠ 0 ∧ v = 2 * a) ∧
    board_sum (_do_play_board_move K key b score).board = board_sum b ∧
    score ≤ (_do_play_board_move K key b score).score := by
  have h := board_move_facts b score
  refine ⟨h.1, h.2.1, h.2.2.1, h.2.2.2, ?_, ?_, ?_⟩
  · intro l v hv
    obtain ⟨a, ha, h0, hva⟩ := line_merged_values_doubled _ v hv
    refine ⟨a, ?_, h0, hva⟩
    simp only [line_compact, List.mem_append, List.mem_filter] at ha
    rcases ha with ha | ha
    · exact ha.1
    · exact ha.1
  · unfold _do_play_board_move
    split
    · exact h.2.2.1.1
    · split
      · exact h.2.2.2.1
      · split
        · exact h.1.1
        · split
          · exact h.2.1.1
          · rfl
  · unfold _do_play_board_move
    split
    · rw [h.2.2.1.2]; omega
    · split
      · rw [h.2.2.2.2]; omega
      · split
        · rw [h.1.2]; omega
        · split
          · rw [h.2.1.2]; omega
          · exact le_refl _

/-- Witness of C13, amended: the merged value of LEFT on the example board is
the double of the tile 2. -/
theorem move_conserves_tile_sum_witness :
    (4 : Nat) ∈ line_merged_values (line_compact [2, 2]) ∧
    (∃ a, a ∈ [2, 2] ∧ a ≠ 0 ∧ 4 = 2 * a) ∧
    board_sum (_do_play_board_move exKeys 3 exBoard 0).board = board_sum exBoard :=
  have h := move_conserves_tile_sum exKeys 3 exBoard 0
  ⟨by decide, h.2.2.2.2.1 [2, 2] 4 (by decide), h.2.2.2.2.2.1⟩

/-! ## A move that reports `moved = false` leaves board and score unchanged -/

theorem map_getD_range_self (l : List Nat) :
    ((List.range l.length).map fun j => l.getD j 0) = l := by
  apply List.ext_getElem
  · simp
  · intro j h1 h2
    simp only [List.getElem_map, List.getElem_range]
    exact List.getD_eq_getElem l 0 h2

theorem line_tiles_compact (l : List Nat) : line_tiles (line_compact l) = line_tiles l := by
  unfold line_tiles line_compact
  rw [List.filter_append, List.filter_filter, List.filter_filter, List.length_append]
  have h1 : (l.filter fun t => (t != 0 && t != 0)) = l.filter fun t => t != 0 := by
    congr 1
    funext t
    simp
  have h2 : (l.filter fun t => (t != 0 && t == 0)) = [] := by
    rw [List.filter_eq_nil_iff]
    intro t _
    cases ht : (t == 0) <;> simp_all
  rw [h1, h2]
  rfl

/-- Each merge of the scan takes one non-empty tile away. -/
theorem line_merge_tiles (sentinel : Nat) : ∀ (l : List Nat),
    line_tiles (line_merge sentinel l).1 + (line_merged_values l).length = line_tiles l
  | [] => by simp [line_merge, line_merged_values, line_tiles]
  | [a] => by simp [line_merge, line_merged_values, line_tiles]
  | a :: b :: rest => by
    have ih1 := line_merge_tiles sentinel rest
    have ih2 := line_merge_tiles sentinel (b :: rest)
    unfold line_tiles at ih1 ih2 ⊢
    by_cases h : (a != 0 && a == b) = true
    · have hab : a ≠ 0 ∧ a = b := by simpa using h
      have ha : (a != 0) = true := by simpa using hab.1
      have hb : (b != 0) = true := by rw [← hab.2]; exact ha
      have hs : (a + b != 0) = true := by
        simp only [bne_iff_ne, ne_eq]
        omega
      simp only [line_merge, line_merged_values, h, if_true]
      simp only [List.filter_cons, hs, bne_self_eq_false, Bool.false_eq_true, if_false, if_true,
        List.length_cons]
      simp only [List.filter_cons, ha, hb, if_true, List.length_cons]
      omega
    · simp only [line_merge, line_merged_values, h, Bool.false_eq_true, if_false]
      by_cases ha : (a != 0) = true
      · simp only [List.filter_cons, ha, if_true, List.length_cons] at ih2 ⊢
        omega
      · simp only [List.filter_cons, ha, Bool.false_eq_true, if_false] at ih2 ⊢
        omega

/-- A line that the transform leaves as it is gains no score. -/
theorem line_move_still (sentinel : Nat) (l : List Nat) (h : (line_move sentinel l).1 = l) :
    (line_move sentinel l).2.1 = 0 := by
  have hm := line_merge_tiles sentinel (line_compact l)
  have hc : line_tiles (line_move sentinel l).1 = line_tiles (line_merge sentinel (line_compact l)).1 := by
    simp only [line_move]
    exact line_tiles_compact _
  rw [h] at hc
  rw [← hc, line_tiles_compact] at hm
  have hlen : (line_merged_values (line_compact l)).length = 0 := by omega
  rw [(line_move_facts sentinel l).2.2, List.length_eq_zero.1 hlen]
  rfl

theorem board_norm_cells (b : Board) :
    (board_of_rows b ((List.range b.dim).map (board_row b))).cells
      = (List.range b.dim).map (board_row b) := by
  simp only [board_of_rows]
  apply List.map_congr_left
  intro i hi
  rw [List.mem_range] at hi
  have h := map_getD_range_self (board_row b i)
  rw [board_row_length] at h
  rw [getD_map_range _ _ _ _ hi]
  exact h

theorem board_shaped_tile (cells : List (List Nat)) (b : Board)
    (h : cells = (List.range b.dim).map (board_row b)) (i j : Nat) (hi : i < b.dim)
    (hj : j < b.dim) : (cells.getD i []).getD j 0 = board_get_tile b i j := by
  rw [h, getD_map_range _ _ _ _ hi]
  unfold board_row
  rw [getD_map_range _ _ _ _ hj]

/-- The lines of a move along the rows that reports `moved = false` are the rows
of the board. -/
theorem rows_of_unmoved (b : Board) (T : Nat → List Nat)
    (hlen : ∀ i, i < b.dim → (T i).length = b.dim)
    (h : (board_of_rows b ((List.range b.dim).map T)).cells
      = (List.range b.dim).map (board_row b)) :
    ∀ i, i < b.dim → T i = board_row b i := by
  intro i hi
  have hs := map_getD_range_self (T i)
  rw [hlen i hi] at hs
  rw [← hs]
  unfold board_row
  apply List.map_congr_left
  intro j hj
  rw [List.mem_range] at hj
  have ht := board_shaped_tile _ b h i j hi hj
  have hd := board_of_rows_tile b ((List.range b.dim).map T) i j hi hj
  rw [getD_map_range _ _ _ _ hi] at hd
  rw [← hd]
  exact ht

/-- The lines of a move along the columns that reports `moved = false` are the
columns of the board. -/
theorem cols_of_unmoved (b : Board) (T : Nat → List Nat)
    (hlen : ∀ j, j < b.dim → (T j).length = b.dim)
    (h : (board_of_cols b ((List.range b.dim).map T)).cells
      = (List.range b.dim).map (board_row b)) :
    ∀ j, j < b.dim → T j = board_col b j := by
  intro j hj
  have hs := map_getD_range_self (T j)
  rw [hlen j hj] at hs
  rw [← hs]
  unfold board_col
  apply List.map_congr_left
  intro i hi
  rw [List.mem_range] at hi
  have ht := board_shaped_tile _ b h i j hi hj
  have hd := board_of_cols_tile b ((List.range b.dim).map T) i j hi hj
  rw [getD_map_range _ _ _ _ hj] at hd
  rw [← hd]
  exact ht

/-- What `moved = false` says about the rebuilt grid. -/
theorem move_result_unmoved (b : Board) (score : Int) (T : Nat → List Nat × Int × Bool)
    (rebuild : Board → List (List Nat) → Board)
    (h : (move_result b score ((List.range b.dim).map T) rebuild).moved = false) :
    (rebuild b ((List.range b.dim).map fun i => (T i).1)).cells
      = (List.range b.dim).map (board_row b) := by
  simp only [move_result, decide_eq_false_iff_not, ne_eq, not_not, List.map_map] at h
  rw [board_norm_cells] at h
  exact h

/-- A move whose lines gain nothing leaves the score as it was. -/
theorem move_result_no_gain (b : Board) (score : Int) (T : Nat → List Nat × Int × Bool)
    (rebuild : Board → List (List Nat) → Board)
    (h : ∀ i, i < b.dim → (T i).2.1 = 0) :
    (move_result b score ((List.range b.dim).map T) rebuild).score = score := by
  simp only [move_result, List.map_map]
  have hz : ((List.range b.dim).map ((fun r : List Nat × Int × Bool => r.2.1) ∘ T)).sum = 0 := by
    apply List.sum_eq_zero
    intro x hx
    rw [List.mem_map] at hx
    obtain ⟨i, hi, rfl⟩ := hx
    rw [List.mem_range] at hi
    exact h i hi
  rw [hz, add_zero]

/-- A board move that reports `moved = false` leaves the score as it was, and
leaves the board as it was when the grid is stored as `dim` rows of `dim`
tiles. -/
theorem board_move_still (b : Board) (score : Int) :
    ((board_move_left b score).moved = false →
      (board_move_left b score).score = score ∧
      (board_shaped b = true → (board_move_left b score).board = b)) ∧
    ((board_move_right b score).moved = false →
      (board_move_right b score).score = score ∧
      (board_shaped b = true → (board_move_right b score).board = b)) ∧
    ((board_move_up b score).moved = false →
      (board_move_up b score).score = score ∧
      (board_shaped b = true → (board_move_up b score).board = b)) ∧
    ((board_move_down b score).moved = false →
      (board_move_down b score).score = score ∧
      (board_shaped b = true → (board_move_down b score).board = b)) := by
  have hboard : ∀ (nb : Board), nb.dim = b.dim → nb.nrandom = b.nrandom →
      nb.sentinel = b.sentinel → nb.cells = (List.range b.dim).map (board_row b) →
      board_shaped b = true → nb = b := by
    intro nb h1 h2 h3 h4 hs
    simp only [board_shaped, decide_eq_true_eq] at hs
    obtain ⟨d, c, n, t⟩ := nb
    obtain ⟨d', c', n', t'⟩ := b
    simp only at h1 h2 h3 h4 hs
    subst h1 h2 h3
    rw [h4, ← hs]
  refine ⟨?_, ?_, ?_, ?_⟩
  · intro h
    have hc := move_result_unmoved b score _ board_of_rows h
    have hrows := rows_of_unmoved b _
      (fun i _ => by rw [(line_move_facts b.sentinel (board_row b i)).2.1, board_row_length]) hc
    refine ⟨move_result_no_gain b score _ board_of_rows
      (fun i hi => line_move_still b.sentinel _ (hrows i hi)), ?_⟩
    intro hs
    have hb : (board_move_left b score).board
        = board_of_rows b ((List.range b.dim).map fun i =>
            (line_move b.sentinel (board_row b i)).1) := by
      simp only [board_move_left, move_result, List.map_map]
      rfl
    rw [hb]
    exact hboard _ rfl rfl rfl hc hs
  · intro h
    have hc := move_result_unmoved b score _ board_of_rows h
    have hrows := rows_of_unmoved b
      (fun i => (line_move b.sentinel (board_row b i).reverse).1.reverse)
      (fun i _ => by
        rw [List.length_reverse, (line_move_facts b.sentinel (board_row b i).reverse).2.1,
          List.length_reverse, board_row_length]) hc
    refine ⟨move_result_no_gain b score _ board_of_rows (fun i hi => ?_), ?_⟩
    · have hrev : (line_move b.sentinel (board_row b i).reverse).1 = (board_row b i).reverse := by
        have hr := congrArg List.reverse (hrows i hi)
        simpa using hr
      exact line_move_still b.sentinel (board_row b i).reverse hrev
    · intro hs
      have hb : (board_move_right b score).board
          = board_of_rows b ((List.range b.dim).map fun i =>
              (line_move b.sentinel (board_row b i).reverse).1.reverse) := by
        simp only [board_move_right, move_result, List.map_map]
        rfl
      rw [hb]
      exact hboard _ rfl rfl rfl hc hs
  · intro h
    have hc := move_result_unmoved b score _ board_of_cols h
    have hcols := cols_of_unmoved b _
      (fun j _ => by rw [(line_move_facts b.sentinel (board_col b j)).2.1, board_col_length]) hc
    refine ⟨move_result_no_gain b score _ board_of_cols
      (fun j hj => line_move_still b.sentinel _ (hcols j hj)), ?_⟩
    intro hs
    have hb : (board_move_up b score).board
        = board_of_cols b ((List.range b.dim).map fun j =>
            (line_move b.sentinel (board_col b j)).1) := by
      simp only [board_move_up, move_result, List.map_map]
      rfl
    rw [hb]
    exact hboard _ rfl rfl rfl hc hs
  · intro h
    have hc := move_result_unmoved b score _ board_of_cols h
    have hcols := cols_of_unmoved b
      (fun j => (line_move b.sentinel (board_col b j).reverse).1.reverse)
      (fun j _ => by
        rw [List.length_reverse, (line_move_facts b.sentinel (board_col b j).reverse).2.1,
          List.length_reverse, board_col_length]) hc
    refine ⟨move_result_no_gain b score _ board_of_cols (fun j hj => ?_), ?_⟩
    · have hrev : (line_move b.sentinel (board_col b j).reverse).1 = (board_col b j).reverse := by
        have hr := congrArg List.reverse (hcols j hj)
        simpa using hr
      exact line_move_still b.sentinel (board_col b j).reverse hrev
    · intro hs
      have hb : (board_move_down b score).board
          = board_of_cols b ((List.range b.dim).map fun j =>
              (line_move b.sentinel (board_col b j).reverse).1.reverse) := by
        simp only [board_move_down, move_result, List.map_map]
        rfl
      rw [hb]
      exact hboard _ rfl rfl rfl hc hs

/-- The assumption of C15 holds in every session whose live board is stored as
`dim` rows of `dim` tiles. -/
theorem move_still_ok_of_shaped (K : TuiKeys) (s : Session) (op : DriverOp)
    (hs : board_shaped s.gs.board = true) : move_still_ok K s op = true := by
  cases op with
  | play key rnd =>
    have h := board_move_still s.gs.board s.gs.score
    simp only [move_still_ok, Bool.or_eq_true, Bool.and_eq_true, decide_eq_true_eq]
    by_cases hm : (_do_play_board_move K key s.gs.board s.gs.score).moved = true
    · exact Or.inl (Or.inl hm)
    · right
      have hm' : (_do_play_board_move K key s.gs.board s.gs.score).moved = false := by
        simpa using hm
      unfold _do_play_board_move at hm' ⊢
      split
      · rename_i hk
        rw [if_pos hk] at hm'
        exact ⟨(h.2.2.1 hm').2 hs, (h.2.2.1 hm').1⟩
      · rename_i hk1
        rw [if_neg hk1] at hm'
        split
        · rename_i hk
          rw [if_pos hk] at hm'
          exact ⟨(h.2.2.2 hm').2 hs, (h.2.2.2 hm').1⟩
        · rename_i hk2
          rw [if_neg hk2] at hm'
          split
          · rename_i hk
            rw [if_pos hk] at hm'
            exact ⟨(h.1 hm').2 hs, (h.1 hm').1⟩
          · rename_i hk3
            rw [if_neg hk3] at hm'
            split
            · rename_i hk
              rw [if_pos hk] at hm'
              exact ⟨(h.2.1 hm').2 hs, (h.2.1 hm').1⟩
            · exact ⟨rfl, rfl⟩
  | undo answer => rfl
  | redo => rfl
  | reset_game answer rnd => rfl
  | new_variant key answer rnd => rfl

end CC2048
